import Mathlib

/-!
Shallow embedding of `src/poker/room/pokerstars.py` (a PokerStars tournament
hand-history parser) and proofs about it.  Python strings are modelled as
`List Char`; Python `Decimal` amounts as exact rationals; fallible code as
`Except`/`Option`.  Each regular expression of the source is modelled as an
executable matcher with Python backtracking semantics (greedy stars try the
longest split first); lines produced by the section splitter contain no
newline, so `.*` is modelled as matching arbitrary characters.
-/

namespace PokerSpec

/-- First index `i ≥ base` (scanning `cs`, which stands for the suffix that
starts at absolute position `base`) at which `sub` occurs, as Python
substring search does. -/
def findSubAux (sub : List Char) : List Char → Nat → Option Nat
  | [], i => if sub = [] then some i else none
  | c :: cs, i => if sub.isPrefixOf (c :: cs) then some i else findSubAux sub cs (i + 1)

/-- Python `sub in s` substring test. -/
def hasSub (cs sub : List Char) : Bool := (findSubAux sub cs 0).isSome

/-- Python `s.find(sub)`: first occurrence index, or `-1`. -/
def pyFind (cs sub : List Char) : Int :=
  match findSubAux sub cs 0 with
  | some i => (i : Int)
  | none => -1

/-- Python `s.find(sub, start)` with a non-negative start. -/
def pyFindFrom (cs sub : List Char) (start : Nat) : Int :=
  match findSubAux sub (cs.drop start) start with
  | some i => (i : Int)
  | none => -1

/-- Clamp a Python index to `[0, n]`, resolving negative indices from the end,
as Python slicing does. -/
def pyIdx (n : Nat) (i : Int) : Nat :=
  if i < 0 then (i + n).toNat else min i.toNat n

/-- Python slice `s[a:b]`. -/
def pySlice (cs : List Char) (a b : Int) : List Char :=
  (cs.take (pyIdx cs.length b)).drop (pyIdx cs.length a)

/-- Python slice `s[a:]`. -/
def pySliceFrom (cs : List Char) (a : Int) : List Char :=
  cs.drop (pyIdx cs.length a)

/-- Consume a literal: `some rest` when `lit` is a prefix of `cs`. -/
def eatLit (lit cs : List Char) : Option (List Char) :=
  if lit.isPrefixOf cs then some (cs.drop lit.length) else none

/-- Backtracking greedy `(.*)`: try every split of `cs`, longest captured part
first, and keep the first continuation success — Python regex semantics for a
greedy star over any character. -/
def tryGreedyAny {α : Type} (cs : List Char) (k : List Char → List Char → Option α) : Option α :=
  ((List.range (cs.length + 1)).reverse).findSome? fun i => k (cs.take i) (cs.drop i)

/-- Digits of a decimal-digit string, most significant first. -/
def digitsToNat (cs : List Char) : Nat :=
  cs.foldl (fun a c => 10 * a + (c.toNat - 48)) 0

/-- Python `int(s)` restricted to unsigned digit strings: fails on the empty
string or any non-digit character. -/
def pyInt (cs : List Char) : Option Nat :=
  if cs.isEmpty then none
  else if cs.all (·.isDigit) then some (digitsToNat cs) else none

/-- Numeric value of a single decimal digit character. -/
def charVal (c : Char) : Nat := c.toNat - 48

/-- Model of Python `Decimal(s)` restricted to plain decimal literals
(optional sign, integer part, optional fractional part); exact rational
value, failure on anything else. -/
def parseDecimal? (cs : List Char) : Option ℚ :=
  let sb : ℚ × List Char :=
    match cs with
    | c :: rest => if c = '+' then (1, rest) else if c = '-' then (-1, rest) else (1, cs)
    | [] => (1, cs)
  let ip := sb.2.takeWhile (·.isDigit)
  match sb.2.drop ip.length with
  | [] => if ip.isEmpty then none else some (sb.1 * (digitsToNat ip : ℚ))
  | c :: frac =>
      if c = '.' then
        if frac.all (·.isDigit) && !(ip.isEmpty && frac.isEmpty) then
          some (sb.1 * ((digitsToNat ip : ℚ) + (digitsToNat frac : ℚ) / ((10 : ℚ) ^ frac.length)))
        else none
      else none

/-- Python `str.upper()` on ASCII street names: uppercase each character. -/
def pyUpper (s : String) : String := String.mk (s.data.map Char.toUpper)

/-- Python `list.index(v)`: first index of `v`, `none` models `ValueError`. -/
def pyIndex? (xs : List String) (v : String) : Option Nat :=
  findIdx xs v 0
where
  findIdx : List String → String → Nat → Option Nat
    | [], _, _ => none
    | x :: xs, v, i => if x = v then some i else findIdx xs v (i + 1)

/-- Python `list.index(v, start)`. -/
def pyIndexFrom? (xs : List String) (v : String) (start : Nat) : Option Nat :=
  match pyIndex? (xs.drop start) v with
  | some i => some (start + i)
  | none => none

/-- Python `xs[i] = v` list assignment: negative indices resolve from the end,
out-of-range indices model `IndexError` as `none`. -/
def pySetList {α : Type} (xs : List α) (i : Int) (v : α) : Option (List α) :=
  let n : Int := xs.length
  let j : Int := if i < 0 then i + n else i
  if 0 ≤ j ∧ j < n then some (xs.set j.toNat v) else none

/-! ## Data model -/

/-- A card: rank and suit characters.  Modelled from the spec: the `Card`
class lives in `..card`, outside `src/`; per the spec a Card is rank × suit
parsed from a fixed two-character token. -/
structure Card where
  rank : Char
  suit : Char
deriving DecidableEq

/-- Build a card from (the first two characters of) a token. -/
def Card.ofChars (cs : List Char) : Card :=
  { rank := cs.getD 0 '?', suit := cs.getD 1 '?' }

/-- A combo: exactly two cards.  Modelled from the spec: the `Combo` class
lives in `..hand`, outside `src/`; it is built from a four-character string, a
card token per half. -/
def Combo := Card × Card
deriving instance DecidableEq for Combo

/-- Build a combo from a four-character string. -/
def Combo.ofChars (cs : List Char) : Combo :=
  (Card.ofChars (cs.take 2), Card.ofChars (cs.drop 2))

/-- The action kinds of the tagged `Action` variant. -/
inductive Act where
  | BET | RAISE | CALL | CHECK | FOLD | RETURN | WIN | MUCK
deriving DecidableEq

/-- Modelled from the spec: the Lookup-table collaborator (`..constants`,
outside `src/`) supplies the closed Action-verb enumeration, queried by exact
string key; an absent key is an UnknownEnumValue failure. -/
def Act.fromVerb : String → Option Act
  | "bets" => some .BET
  | "raises" => some .RAISE
  | "calls" => some .CALL
  | "checks" => some .CHECK
  | "folds" => some .FOLD
  | "mucks" => some .MUCK
  | _ => none

/-- A classified action tuple: actor name, action kind, optional exact
decimal amount — the model of the tuples the `_Flop` methods return. -/
structure PAction where
  name : String
  act : Act
  amount : Option ℚ
deriving DecidableEq

/-- Fatal parse failures. `UnrecognizedActionLine` models the bare `raise` on
an unclassifiable action line; `AttributeError` models `.group` on a failed
regex match; `InvalidDecimal` models `Decimal`/`int` rejecting a token;
`IndexError` models an out-of-range list access; `ValueErr` models an
uncaught `list.index` failure. -/
inductive Err where
  | UnrecognizedActionLine (line : String)
  | MalformedHeader
  | UnknownEnumValue (token : String)
  | InvalidDecimal (token : String)
  | IndexError
  | AttributeError
  | ValueErr
deriving DecidableEq

deriving instance DecidableEq for Except

/-! ## `_Flop` action-line classification (`_Flop._parse_*`) -/

/-- `_Flop._parse_uncalled`: amount is the text inside the first parenthesis
pair, the actor name follows `"to "`. -/
def parse_uncalled (line : List Char) : Except Err PAction :=
  let fp := pyFind line ['(']
  let sp := pyFind line [')']
  let amount := pySlice line (fp + 1) sp
  let ns := pyFind line "to ".data + 3
  let name := pySliceFrom line ns
  match parseDecimal? amount with
  | some q => .ok { name := String.mk name, act := .RETURN, amount := some q }
  | none => .error (.InvalidDecimal (String.mk amount))

/-- `_Flop._parse_collected`: the name is the leading token up to the first
space, the amount text sits between the second and third spaces; the street
pot becomes the initial pot plus that amount and the Win tuple carries the
new pot.  Returns the action together with the updated pot. -/
def parse_collected (initial_pot : ℚ) (line : List Char) : Except Err (PAction × ℚ) :=
  let fs := pyFind line [' ']
  let name := pySlice line 0 fs
  let ss := pyFindFrom line [' '] (fs + 1).toNat
  let ts := pyFindFrom line [' '] (ss + 1).toNat
  let amount := pySlice line (ss + 1) ts
  match parseDecimal? amount with
  | some q =>
      let pot := initial_pot + q
      .ok ({ name := String.mk name, act := .WIN, amount := some pot }, pot)
  | none => .error (.InvalidDecimal (String.mk amount))

/-- `_Flop._parse_muck`: name up to the colon, no amount. -/
def parse_muck (line : List Char) : PAction :=
  let ci := pyFind line [':']
  { name := String.mk (pySlice line 0 ci), act := .MUCK, amount := none }

/-- `_Flop._parse_player_action`: `name: verb [amount]`; the verb is looked
up in the Action table, a trailing token is parsed as a decimal amount. -/
def parse_player_action (line : List Char) : Except Err PAction :=
  let ci := pyFind line [':']
  let name := pySlice line 0 ci
  let ei := pyFindFrom line [' '] (ci + 2).toNat
  if ei = -1 then
    let verb := pySliceFrom line (ci + 2)
    match Act.fromVerb (String.mk verb) with
    | some a => .ok { name := String.mk name, act := a, amount := none }
    | none => .error (.UnknownEnumValue (String.mk verb))
  else
    let verb := pySlice line (ci + 2) ei
    match Act.fromVerb (String.mk verb) with
    | none => .error (.UnknownEnumValue (String.mk verb))
    | some a =>
        let amount := pySliceFrom line (ei + 1)
        match parseDecimal? amount with
        | some q => .ok { name := String.mk name, act := a, amount := some q }
        | none => .error (.InvalidDecimal (String.mk amount))

/-- The four line shapes of `_Flop._parse_actions`, in source order. -/
inductive LineShape where
  | uncalled | collected | noshow | playerAction
deriving DecidableEq

/-- The ordered first-match-wins classification of one action line
(the `if`/`elif` chain of `_Flop._parse_actions`); `none` is the
fall-through that raises. -/
def classify (line : List Char) : Option LineShape :=
  if "Uncalled bet".data.isPrefixOf line then some .uncalled
  else if hasSub line "collected".data then some .collected
  else if hasSub line "doesn\x27t show hand".data then some .noshow
  else if line.contains ':' then some .playerAction
  else none

/-- The loop of `_Flop._parse_actions`: classify each line in order,
threading the street pot (only collected lines change it). -/
def parse_actions_go (initial_pot : ℚ) :
    List (List Char) → ℚ → List PAction → Except Err (List PAction × ℚ)
  | [], pot, acc => .ok (acc.reverse, pot)
  | l :: ls, pot, acc =>
    if "Uncalled bet".data.isPrefixOf l then
      match parse_uncalled l with
      | .ok a => parse_actions_go initial_pot ls pot (a :: acc)
      | .error e => .error e
    else if hasSub l "collected".data then
      match parse_collected initial_pot l with
      | .ok (a, pot2) => parse_actions_go initial_pot ls pot2 (a :: acc)
      | .error e => .error e
    else if hasSub l "doesn\x27t show hand".data then
      parse_actions_go initial_pot ls pot (parse_muck l :: acc)
    else if l.contains ':' then
      match parse_player_action l with
      | .ok a => parse_actions_go initial_pot ls pot (a :: acc)
      | .error e => .error e
    else
      .error (.UnrecognizedActionLine (String.mk l))

/-- `_Flop._parse_actions`: returns the classified actions (`none` when the
list is empty, as the source stores `None`) and the resolved street pot. -/
def parse_actions (initial_pot : ℚ) (lines : List (List Char)) :
    Except Err (Option (List PAction) × ℚ) :=
  (parse_actions_go initial_pot lines initial_pot []).map fun r =>
    (if r.1.isEmpty then none else some r.1, r.2)

/-- Specification shape of a collected action line: actor name, the
`collected` keyword, the amount, and trailing text, space separated. -/
def collectedLine (name amt rest : List Char) : List Char :=
  name ++ (' ' :: ("collected".data ++ (' ' :: (amt ++ (' ' :: rest)))))

/-- The `_Flop` value: initial pot, resolved pot, classified actions, and the
three flop cards read at fixed character offsets. -/
structure FlopData where
  initial_pot : ℚ
  pot : ℚ
  actions : Option (List PAction)
  cards : Card × Card × Card
deriving DecidableEq

/-- `_Flop.__init__`: the first line holds the board cards at offsets 1–2,
4–5, 7–8; the remaining lines are the street actions. -/
def flopFromLines (floplines : List (List Char)) (initial_pot : ℚ) :
    Except Err FlopData :=
  match floplines with
  | [] => .error .IndexError
  | boardline :: actionlines =>
    let cards := (Card.ofChars (pySlice boardline 1 3),
                  Card.ofChars (pySlice boardline 4 6),
                  Card.ofChars (pySlice boardline 7 9))
    (parse_actions initial_pot actionlines).map fun r =>
      { initial_pot := initial_pot, pot := r.2, actions := r.1, cards := cards }

/-! ## Seated players, table, button (`_parse_table`, `_parse_players`) -/

/-- A seated player record (`_Player` of `..handhistory`, outside `src/`).
Modelled from the spec: seat number, opaque name, starting stack, optional
Combo known only for the hero. -/
structure Player where
  name : String
  stack : Nat
  seat : Nat
  combo : Option Combo
deriving DecidableEq

/-- Matcher for `_seat_re`: `^Seat (\d): (.*) \((\d*) in chips\)$`.
Returns the seat digit, the name capture, and the stack digit capture.  The
greedy `(.*)` is resolved by backtracking, longest first; the greedy `(\d*)`
followed by the literal `" in chips)"` is deterministic because a shorter
digit split would leave a digit where a space is required. -/
def matchSeatRe (line : List Char) : Option (Char × String × List Char) :=
  (eatLit "Seat ".data line).bind fun cs =>
  match cs with
  | d :: cs =>
    if d.isDigit then
      (eatLit ": ".data cs).bind fun cs =>
      tryGreedyAny cs fun name rest =>
        (eatLit " (".data rest).bind fun rest2 =>
        let ds := rest2.takeWhile (·.isDigit)
        if rest2.drop ds.length = " in chips)".data then some (d, String.mk name, ds)
        else none
    else none
  | [] => none

/-- Matcher for `_table_re`:
`^Table \x27(.*)\x27 (\d)-max Seat #(?P<button>\d) is the button$`.
Returns the table name and the two single-digit captures. -/
def matchTableRe (line : List Char) : Option (String × Char × Char) :=
  (eatLit "Table \x27".data line).bind fun cs =>
  tryGreedyAny cs fun tname rest =>
    (eatLit "\x27 ".data rest).bind fun rest =>
    match rest with
    | m :: rest =>
      if m.isDigit then
        (eatLit "-max Seat #".data rest).bind fun rest =>
        match rest with
        | b :: rest =>
          if b.isDigit then
            if rest = " is the button".data then some (String.mk tname, m, b) else none
          else none
        | [] => none
      else none
    | [] => none

/-- `_parse_table`: table name and max-player count from the second line;
also returns the button digit for `_parse_button`.  A non-matching line is
the `AttributeError` of `.group` on `None`. -/
def parse_table (line : List Char) : Except Err (String × Nat × Char) :=
  match matchTableRe line with
  | none => .error .AttributeError
  | some r => .ok (r.1, charVal r.2.1, r.2.2)

/-- Modelled from the spec: `_init_seats` (in `..handhistory`, outside
`src/`) sizes the player array to the max-seat count, every seat an unfilled
placeholder. -/
def initSeats (n : Nat) : List (Option Player) := List.replicate n none

/-- The player a seat line yields: its seat number and `_Player` record
(`None` combo); `none` when the line does not match the seat grammar or the
stack capture is empty (Python `int` rejects the empty string). -/
def seatLinePlayer (l : List Char) : Option (Nat × Player) :=
  (matchSeatRe l).bind fun r =>
    (pyInt r.2.2).map fun stack =>
      (charVal r.1, { name := r.2.1, stack := stack, seat := charVal r.1, combo := none })

/-- The scan loop of `_parse_players`: each seat-grammar line is written at
Python index `seat - 1`; the first non-matching line ends the scan. -/
def parse_players_go (ps : List (Option Player)) :
    List (List Char) → Except Err (List (Option Player))
  | [] => .ok ps
  | l :: ls =>
    match matchSeatRe l with
    | none => .ok ps
    | some r =>
      match pyInt r.2.2 with
      | none => .error (.InvalidDecimal (String.mk r.2.2))
      | some stack =>
        let seat := charVal r.1
        let player : Player := { name := r.2.1, stack := stack, seat := seat, combo := none }
        match pySetList ps ((seat : Int) - 1) (some player) with
        | some ps2 => parse_players_go ps2 ls
        | none => .error .IndexError

/-- `_parse_players`: scan the lines after the table line into a player
array sized to the max-player count. -/
def parse_players (max_players : Nat) (lines : List (List Char)) :
    Except Err (List (Option Player)) :=
  parse_players_go (initSeats max_players) lines

/-- Specification value for the seat scan: the player of the last
seat-grammar line for seat `i + 1` among the scanned lines, `none` when no
such line occurred — the content seat `i` must hold once the scan is done. -/
def lastSeatWrite (lines : List (List Char)) (i : Nat) : Option Player :=
  lines.reverse.findSome? fun l =>
    (seatLinePlayer l).bind fun sp => if sp.1 = i + 1 then some sp.2 else none

/-- Decidable guard used to state the seat-scan theorem: the line yields a
player whose seat number lies within `1..max`. -/
def seatInRange (max : Nat) (l : List Char) : Bool :=
  match seatLinePlayer l with
  | some sp => decide (1 ≤ sp.1) && decide (sp.1 ≤ max)
  | none => false

/-! ## Hero (`_parse_hero`) -/

/-- Matcher for `_hero_re`: `^Dealt to (?P<hero_name>.*) \[(..) (..)\]$`. -/
def matchHeroRe (line : List Char) : Option (String × List Char × List Char) :=
  (eatLit "Dealt to ".data line).bind fun cs =>
  tryGreedyAny cs fun name rest =>
    match rest with
    | ' ' :: '[' :: a :: b :: ' ' :: c :: d :: ']' :: [] => some (String.mk name, [a, b], [c, d])
    | _ => none

/-- Modelled from the spec: `_get_hero_from_players` (in `..handhistory`,
outside `src/`) locates the existing Player entry by name equality and
returns it together with its seat index. -/
def getHeroFromPlayersGo (name : String) : List (Option Player) → Nat → Option (Player × Nat)
  | [], _ => none
  | none :: ps, i => getHeroFromPlayersGo name ps (i + 1)
  | some p :: ps, i =>
    if p.name = name then some (p, i) else getHeroFromPlayersGo name ps (i + 1)

/-- Locate the hero among the seated players by name equality. -/
def getHeroFromPlayers (players : List (Option Player)) (name : String) :
    Option (Player × Nat) :=
  getHeroFromPlayersGo name players 0

/-- The `hero._replace(combo=Combo(...))` step: a new Player value equal to
the located one except for the populated combo. -/
def heroReplaced (hero0 : Player) (c1 c2 : List Char) : Player :=
  { hero0 with combo := some (Combo.ofChars (c1 ++ c2)) }

/-- `_parse_hero`: replace the named player with a copy whose combo holds the
two revealed cards, substitute it at the same seat index, and re-point the
button at the updated record when the button carries the hero name.  Returns
(players, hero, button) after the update. -/
def parse_hero (players : List (Option Player)) (button : Player) (line : List Char) :
    Except Err (List (Option Player) × Player × Player) :=
  match matchHeroRe line with
  | none => .error .AttributeError
  | some (hname, c1, c2) =>
    match getHeroFromPlayers players hname with
    | none => .error .AttributeError
    | some (hero0, idx) =>
      let hero : Player := heroReplaced hero0 c1 c2
      let players2 := players.set idx (some hero)
      let button2 := if button.name = hero.name then hero else button
      .ok (players2, hero, button2)

/-! ## Streets (`_parse_flop`, `_parse_street`, `_parse_showdown`) -/

/-- `_parse_flop`: locate the literal `"FLOP"` keyword; absent keyword means
flop unset (`.ok none`), a normal terminal condition.  When present, the
lines up to the next empty string feed the `_Flop` subparser; a missing
empty-string terminator is an uncaught `ValueError` (it is raised outside
the `try` block of the source). -/
def parse_flop (splitted : List String) (initial_pot : ℚ) :
    Except Err (Option FlopData) :=
  match pyIndex? splitted "FLOP" with
  | none => .ok none
  | some i =>
    let start := i + 1
    match pyIndexFrom? splitted "" start with
    | none => .error .ValueErr
    | some stop =>
      (flopFromLines (((splitted.take stop).drop start).map String.data) initial_pot).map some

/-- Outcome of `_parse_street`: `absent` models the `except ValueError`
branch, which assigns `None` to both the street attribute and the street
actions attribute; `found` models the `try` branch, which assigns only the
street actions (`None` when the slice is empty). -/
inductive StreetResult where
  | absent
  | found (actions : Option (List String))
deriving DecidableEq

/-- `_parse_street`: locate the uppercase street keyword; if either `index`
call fails the street and its actions are set to the unset state. -/
def parse_street (splitted : List String) (street : String) : StreetResult :=
  match pyIndex? splitted (pyUpper street) with
  | none => .absent
  | some i =>
    match pyIndexFrom? splitted "" (i + 2) with
    | none => .absent
    | some stop =>
      let acts := (splitted.take stop).drop (i + 2)
      .found (if acts.isEmpty then none else some acts)

/-- `_parse_showdown`: the showdown flag is the literal membership of
`"SHOW DOWN"` in the split line sequence. -/
def parse_showdown (splitted : List String) : Bool :=
  splitted.contains "SHOW DOWN"

/-! ## Summary pot and board (`_parse_pot`, `_parse_board`) -/

/-- Matcher for `_pot_re`: `^Total pot (\d*) .*\| Rake (\d*)$`.  Returns the
two digit captures.  Both greedy `(\d*)` groups are deterministic (followed
by a non-digit literal or the end); the greedy `.*` backtracks to the last
`"| Rake "` occurrence that lets the rest match. -/
def matchPotRe (line : List Char) : Option (List Char × List Char) :=
  (eatLit "Total pot ".data line).bind fun cs =>
  let ds := cs.takeWhile (·.isDigit)
  (eatLit [' '] (cs.drop ds.length)).bind fun cs =>
  tryGreedyAny cs fun _ rest =>
    (eatLit "| Rake ".data rest).bind fun rest =>
    let rs := rest.takeWhile (·.isDigit)
    if rest.drop rs.length = [] then some (ds, rs) else none

/-- Scanner for `_board_re.findall` with pattern
`(?<=[\[ ])(..)(?=[\] ])`: every two-character token preceded by `[` or a
space and followed by `]` or a space; after a match the scan resumes past
the two matched characters, as `findall` does. -/
def boardTokensGo (prev : Option Char) (cs : List Char) : List (List Char) :=
  match cs with
  | [] => []
  | [_] => []
  | c1 :: c2 :: rest =>
    if ((prev == some '[') || (prev == some ' ')) &&
        (match rest with | r :: _ => (r == ']') || (r == ' ') | [] => false) then
      [c1, c2] :: boardTokensGo (some c2) rest
    else
      boardTokensGo (some c1) (c2 :: rest)

/-- All board-card tokens of a line. -/
def boardTokens (cs : List Char) : List (List Char) := boardTokensGo none cs

/-- Specification shape of the card tokens on a board line: a two-character
token whose characters are not themselves delimiters. -/
def tokOk (t : List Char) : Prop :=
  ∃ x y : Char, t = [x, y] ∧ x ≠ '[' ∧ x ≠ ']' ∧ x ≠ ' ' ∧ y ≠ '[' ∧ y ≠ ']' ∧ y ≠ ' '

/-- Specification builder: the tail of a board line, tokens separated by
single spaces and closed by the bracket. -/
def joinToks : List (List Char) → List Char
  | [] => [']']
  | t :: ts => t ++ (match ts with | [] => [']'] | _ :: _ => ' ' :: joinToks ts)

/-- `_parse_board`: when the line after the pot line starts with `"Board"`,
the token at index 3 is the turn card and the token at index 4 is the river
card, each `none` when missing; otherwise the method returns early and the
two fields keep their previous values. -/
def parse_board (turn river : Option Card) (line : List Char) :
    Option Card × Option Card :=
  if "Board".data.isPrefixOf line then
    let cards := boardTokens line
    ((cards.get? 3).map Card.ofChars, (cards.get? 4).map Card.ofChars)
  else (turn, river)

/-! ## Winners (`_parse_winners`) -/

/-- Matcher for `_winner_re`: `^Seat (\d): (.*) collected \((\d*)\)$`,
returning the name capture (group 2). -/
def matchWinnerRe (line : List Char) : Option String :=
  (eatLit "Seat ".data line).bind fun cs =>
  match cs with
  | d :: cs =>
    if d.isDigit then
      (eatLit ": ".data cs).bind fun cs =>
      tryGreedyAny cs fun g2 rest =>
        (eatLit " collected (".data rest).bind fun rest2 =>
        if rest2.dropWhile (·.isDigit) = [')'] then some (String.mk g2) else none
    else none
  | [] => none

/-- Matcher for `_showdown_re`: `^Seat (\d): (.*) showed .* and won` (a
prefix match: trailing text is allowed), returning the name capture. -/
def matchShowdownRe (line : List Char) : Option String :=
  (eatLit "Seat ".data line).bind fun cs =>
  match cs with
  | d :: cs =>
    if d.isDigit then
      (eatLit ": ".data cs).bind fun cs =>
      tryGreedyAny cs fun g2 rest =>
        (eatLit " showed ".data rest).bind fun rest2 =>
        if hasSub rest2 " and won".data then some (String.mk g2) else none
    else none
  | [] => none

/-- Python `set.add`: insert a name only when absent. -/
def setAdd (ws : List String) (n : String) : List String :=
  if n ∈ ws then ws else ws ++ [n]

/-- The loop of `_parse_winners` over the summary lines after the board
line: on the non-showdown path every line containing `"collected"` must
match the seat-summary grammar, on the showdown path every line containing
`"won"` must match the showdown-summary grammar; a failed match is the
`AttributeError` of `.group` on `None`. -/
def parse_winners_go (show_down : Bool) :
    List (List Char) → List String → Except Err (List String)
  | [], ws => .ok ws
  | l :: ls, ws =>
    if !show_down && hasSub l "collected".data then
      match matchWinnerRe l with
      | some name => parse_winners_go show_down ls (setAdd ws name)
      | none => .error .AttributeError
    else if show_down && hasSub l "won".data then
      match matchShowdownRe l with
      | some name => parse_winners_go show_down ls (setAdd ws name)
      | none => .error .AttributeError
    else parse_winners_go show_down ls ws

/-- `_parse_winners`: collect the de-duplicated winner names. -/
def parse_winners (show_down : Bool) (summaryLines : List (List Char)) :
    Except Err (List String) :=
  parse_winners_go show_down summaryLines []

/-! ## Header (`_header_re`, `parse_header`) and the hand aggregate -/

/-- Modelled from the spec: the Lookup-table collaborator supplies the
closed GameType enumeration; `"Tournament"` is the key the header grammar
can produce. -/
inductive GameTypeE where
  | TOUR
deriving DecidableEq

/-- GameType lookup by exact string key. -/
def GameTypeE.fromKey : String → Option GameTypeE
  | "Tournament" => some .TOUR
  | _ => none

/-- Modelled from the spec: the closed Game enumeration of the Lookup-table
collaborator; any key outside it is an UnknownEnumValue failure. -/
inductive GameE where
  | HOLDEM | OMAHA
deriving DecidableEq

/-- Game lookup by exact string key. -/
def GameE.fromKey : String → Option GameE
  | "Hold\x27em" => some .HOLDEM
  | "Omaha" => some .OMAHA
  | _ => none

/-- Modelled from the spec: the closed Limit enumeration; `"No Limit"` is
the only key the header grammar can produce. -/
inductive LimitE where
  | NL
deriving DecidableEq

/-- Limit lookup by exact string key. -/
def LimitE.fromKey : String → Option LimitE
  | "No Limit" => some .NL
  | _ => none

/-- The closed Currency enumeration; the header grammar alternation admits
only `USD` and `EUR`. -/
inductive CurrencyE where
  | USD | EUR
deriving DecidableEq

/-- Currency lookup by exact string key. -/
def CurrencyE.fromKey : String → Option CurrencyE
  | "USD" => some .USD
  | "EUR" => some .EUR
  | _ => none

/-- One numeric date field: at most `maxLen` digits, value within
`[lo, hi]`; returns the value and the remaining characters. -/
def dField (cs : List Char) (maxLen lo hi : Nat) : Option (Nat × List Char) :=
  let ds := cs.takeWhile (·.isDigit)
  if ds.isEmpty || decide (maxLen < ds.length) then none
  else
    let v := digitsToNat ds
    if lo ≤ v ∧ v ≤ hi then some (v, cs.drop ds.length) else none

/-- Modelled from the spec and the source constant
`date_format = %Y/%m/%d %H:%M:%S ET`: `_parse_date` (in `..handhistory`,
outside `src/`) parses the bracketed date with that fixed format; the model
returns the six numeric components. -/
def parseDate (cs : List Char) : Option (Nat × Nat × Nat × Nat × Nat × Nat) := do
  let (y, r) ← dField cs 4 0 9999
  let r ← eatLit ['/'] r
  let (mo, r) ← dField r 2 1 12
  let r ← eatLit ['/'] r
  let (d, r) ← dField r 2 1 31
  let r ← eatLit [' '] r
  let (h, r) ← dField r 2 0 23
  let r ← eatLit [':'] r
  let (mi, r) ← dField r 2 0 59
  let r ← eatLit [':'] r
  let (s, r) ← dField r 2 0 59
  if r = " ET".data then some (y, mo, d, h, mi, s) else none

/-- The named captures of `_header_re`, in source order. -/
structure HeaderGroups where
  ident : List Char
  game_type : List Char
  tournament_ident : List Char
  buyin : List Char
  rake : List Char
  currency : List Char
  game : List Char
  limit : List Char
  tournament_level : List Char
  sb : List Char
  bb : List Char
  date : List Char
deriving DecidableEq

/-- Matcher for the `\$(\d*\.\d{2})` money groups of the header: greedy
digits, a dot, exactly two digits; deterministic because a shorter digit
split would leave a digit where the dot must sit. -/
def matchDecGroup (cs : List Char) : Option (List Char × List Char) :=
  let ds := cs.takeWhile (·.isDigit)
  match cs.drop ds.length with
  | '.' :: a :: b :: rest =>
    if a.isDigit && b.isDigit then some (ds ++ '.' :: [a, b], rest) else none
  | _ => none

/-- The `USD|EUR` alternation, alternatives tried in source order. -/
def matchCurrencyAlt (cs : List Char) : Option (List Char × List Char) :=
  match eatLit "USD".data cs with
  | some rest => some ("USD".data, rest)
  | none =>
    match eatLit "EUR".data cs with
    | some rest => some ("EUR".data, rest)
    | none => none

/-- Matcher for `_header_re` (the verbose header grammar).  Fixed literals
and digit runs are deterministic; each greedy `(.*)` — game, level, small
blind, big blind, the uncaptured localized date, and the bracketed date —
backtracks from the longest split, nested left to right, which is exactly
the Python regex search order. -/
def matchHeaderRe (line : List Char) : Option HeaderGroups :=
  (eatLit "PokerStars Hand #".data line).bind fun cs =>
  let ident := cs.takeWhile (·.isDigit)
  (eatLit ": ".data (cs.drop ident.length)).bind fun cs =>
  (eatLit "Tournament #".data cs).bind fun cs =>
  let tid := cs.takeWhile (·.isDigit)
  (eatLit ", $".data (cs.drop tid.length)).bind fun cs =>
  (matchDecGroup cs).bind fun br =>
  (eatLit "+$".data br.2).bind fun cs =>
  (matchDecGroup cs).bind fun rr =>
  (eatLit [' '] rr.2).bind fun cs =>
  (matchCurrencyAlt cs).bind fun cr =>
  (eatLit [' '] cr.2).bind fun cs =>
  tryGreedyAny cs fun game rest =>
    (eatLit " No Limit - Level ".data rest).bind fun cs =>
    tryGreedyAny cs fun level rest =>
      (eatLit " (".data rest).bind fun cs =>
      tryGreedyAny cs fun sb rest =>
        (eatLit ['/'] rest).bind fun cs =>
        tryGreedyAny cs fun bb rest =>
          (eatLit ") - ".data rest).bind fun cs =>
          tryGreedyAny cs fun _loc rest =>
            (eatLit " [".data rest).bind fun cs =>
            tryGreedyAny cs fun date rest =>
              if rest = [']'] then
                some { ident := ident, game_type := "Tournament".data,
                       tournament_ident := tid, buyin := br.1, rake := rr.1,
                       currency := cr.1, game := game, limit := "No Limit".data,
                       tournament_level := level, sb := sb, bb := bb, date := date }
              else none

/-- The in-progress hand aggregate: every attribute the parsing stages of
`PokerStarsHandHistory` assign, unset values as `none`/defaults. -/
structure HH where
  ident : String := ""
  tournament_ident : String := ""
  tournament_level : String := ""
  game_type : Option GameTypeE := none
  game : Option GameE := none
  limit : Option LimitE := none
  currency : Option CurrencyE := none
  sb : Option ℚ := none
  bb : Option ℚ := none
  buyin : Option ℚ := none
  rake : Option ℚ := none
  date : Option (Nat × Nat × Nat × Nat × Nat × Nat) := none
  table_name : String := ""
  max_players : Nat := 0
  players : List (Option Player) := []
  button : Option Player := none
  hero : Option Player := none
  preflop_actions : Option (List String) := none
  flop : Option FlopData := none
  turn : Option Card := none
  river : Option Card := none
  turn_actions : Option (List String) := none
  river_actions : Option (List String) := none
  show_down : Bool := false
  total_pot : Option Nat := none
  winners : List String := []
deriving DecidableEq

/-- `parse_header`: match the first line against the header grammar and
coerce each captured group into its typed field, in source order (game
type, blinds, buy-in, rake, date, game, limit, identifiers, level,
currency); the first failing coercion aborts the parse. -/
def parse_header (hh : HH) (line : List Char) : Except Err HH :=
  match matchHeaderRe line with
  | none => .error .MalformedHeader
  | some g =>
    match GameTypeE.fromKey (String.mk g.game_type) with
    | none => .error (.UnknownEnumValue (String.mk g.game_type))
    | some gt =>
      match parseDecimal? g.sb with
      | none => .error (.InvalidDecimal (String.mk g.sb))
      | some sbv =>
        match parseDecimal? g.bb with
        | none => .error (.InvalidDecimal (String.mk g.bb))
        | some bbv =>
          match parseDecimal? g.buyin with
          | none => .error (.InvalidDecimal (String.mk g.buyin))
          | some buyinv =>
            match parseDecimal? g.rake with
            | none => .error (.InvalidDecimal (String.mk g.rake))
            | some rakev =>
              match parseDate g.date with
              | none => .error .ValueErr
              | some datev =>
                match GameE.fromKey (String.mk g.game) with
                | none => .error (.UnknownEnumValue (String.mk g.game))
                | some gamev =>
                  match LimitE.fromKey (String.mk g.limit) with
                  | none => .error (.UnknownEnumValue (String.mk g.limit))
                  | some limitv =>
                    match CurrencyE.fromKey (String.mk g.currency) with
                    | none => .error (.UnknownEnumValue (String.mk g.currency))
                    | some curv =>
                      .ok { hh with
                        game_type := some gt, sb := some sbv, bb := some bbv,
                        buyin := some buyinv, rake := some rakev, date := some datev,
                        game := some gamev, limit := some limitv,
                        ident := String.mk g.ident,
                        tournament_ident := String.mk g.tournament_ident,
                        tournament_level := String.mk g.tournament_level,
                        currency := some curv }

/-- `_parse_pot`: match the summary pot line and assign only the total-pot
field; the rake capture (group 2) is discarded and every other attribute of
the in-progress hand is untouched. -/
def parse_pot (hh : HH) (potline : List Char) : Except Err HH :=
  match matchPotRe potline with
  | none => .error .AttributeError
  | some r =>
    match pyInt r.1 with
    | none => .error (.InvalidDecimal (String.mk r.1))
    | some v => .ok { hh with total_pot := some v }

/-! ## Helper lemmas -/

theorem findSubAux_single_cons_self (c : Char) (cs : List Char) (i : Nat) :
    findSubAux [c] (c :: cs) i = some i := by
  simp [findSubAux, List.isPrefixOf]

theorem findSubAux_single_cons_ne (c x : Char) (cs : List Char) (i : Nat) (h : c ≠ x) :
    findSubAux [c] (x :: cs) i = findSubAux [c] cs (i + 1) := by
  have hpre : ([c].isPrefixOf (x :: cs)) = false := by
    simp [List.isPrefixOf, h]
  rw [findSubAux, hpre]
  simp

theorem findSubAux_single_append (c : Char) (a b : List Char) (i : Nat) (h : c ∉ a) :
    findSubAux [c] (a ++ b) i = findSubAux [c] b (i + a.length) := by
  induction a generalizing i with
  | nil => simp
  | cons x a ih =>
    have hxc : c ≠ x := fun hc => h (hc ▸ List.mem_cons_self x a)
    have ha : c ∉ a := fun hc => h (List.mem_cons_of_mem x hc)
    rw [List.cons_append, findSubAux_single_cons_ne c x (a ++ b) i hxc, ih (i + 1) ha]
    congr 1
    simp only [List.length_cons]
    omega

theorem eatLit_self_append (lit rest : List Char) :
    eatLit lit (lit ++ rest) = some rest := by
  simp [eatLit]

theorem drop_len_append (A B : List Char) : (A ++ B).drop A.length = B := by
  induction A with
  | nil => rfl
  | cons x A ih => simpa using ih

theorem take_len_append (A B : List Char) : (A ++ B).take A.length = A := by
  induction A with
  | nil => rfl
  | cons x A ih => simpa using ih

theorem eatLit_eq_some {lit cs rest : List Char} (h : eatLit lit cs = some rest) :
    cs = lit ++ rest := by
  unfold eatLit at h
  split at h
  · next hp =>
      obtain ⟨t, ht⟩ := List.isPrefixOf_iff_prefix.mp hp
      obtain rfl := Option.some.inj h
      subst ht
      rw [drop_len_append]
  · exact absurd h (by simp)

theorem tryGreedyAny_eq_some {α : Type} {cs : List Char}
    {k : List Char → List Char → Option α} {r : α}
    (h : tryGreedyAny cs k = some r) :
    ∃ a b, cs = a ++ b ∧ k a b = some r := by
  unfold tryGreedyAny at h
  obtain ⟨i, _, hi⟩ := List.exists_of_findSome?_eq_some h
  exact ⟨cs.take i, cs.drop i, (List.take_append_drop i cs).symm, hi⟩

theorem pyIdx_coe (n k : Nat) (h : k ≤ n) : pyIdx n (k : Int) = k := by
  unfold pyIdx
  split <;> omega

theorem drop_append_cons (A : List Char) (c : Char) (B : List Char) :
    (A ++ (c :: B)).drop (A.length + 1) = B := by
  rw [show A ++ (c :: B) = (A ++ [c]) ++ B from by simp,
      show A.length + 1 = (A ++ [c]).length from by simp,
      drop_len_append]

theorem pySlice_extract (A mid B : List Char) :
    pySlice (A ++ (mid ++ B)) (A.length : Int) ((A.length + mid.length : Nat) : Int) = mid := by
  unfold pySlice
  rw [pyIdx_coe _ _ (by simp), pyIdx_coe _ _ (by simp)]
  rw [show A ++ (mid ++ B) = (A ++ mid) ++ B from by simp,
      show A.length + mid.length = (A ++ mid).length from by simp,
      take_len_append, drop_len_append]

theorem pySlice_zero (A B : List Char) :
    pySlice (A ++ B) 0 (A.length : Int) = A := by
  unfold pySlice
  rw [show (0 : Int) = ((0 : Nat) : Int) from by simp, pyIdx_coe _ _ (by simp),
      pyIdx_coe _ _ (by simp), List.drop_zero, take_len_append]

/-! ## C1 -/

/-- C1, counterexample.  On a `collected` line parsed with a non-zero prior
street pot, the Win action carries `302`, the recomputed pot, while the
collected amount taken from the line is `300`: the carried amount is not the
collected amount. -/
theorem parse_collected_carries_pot_cex :
    parse_collected 2 "Alice collected 300 from pot".data =
      .ok ({ name := "Alice", act := .WIN, amount := some 302 }, 302) ∧
    parseDecimal? "300".data = some 300 ∧
    (2 : ℚ) + 300 = 302 ∧ some (302 : ℚ) ≠ some (300 : ℚ) := by
  refine ⟨by with_unfolding_all rfl, by with_unfolding_all rfl, by norm_num, by simp⟩

/-- C1, amended.  For a collected action line of the shape
`name ++ " collected " ++ amt ++ " " ++ rest` (no space inside the name or
the amount), the classifier returns a Win action whose actor name is the
leading token up to the first space and whose carried amount is the
recomputed street pot — the prior street pot plus the collected amount —
and the street pot is recomputed to that same value. -/
theorem parse_collected_spec (p q : ℚ) (name amt rest : List Char)
    (hname : ' ' ∉ name) (hamt : ' ' ∉ amt)
    (hq : parseDecimal? amt = some q) :
    parse_collected p (collectedLine name amt rest) =
      .ok ({ name := String.mk name, act := .WIN, amount := some (p + q) }, p + q) := by
  have hcol : ' ' ∉ "collected".data := by decide
  have hlen9 : ("collected".data).length = 9 := rfl
  have hfs : pyFind (collectedLine name amt rest) [' '] = (name.length : Int) := by
    unfold pyFind collectedLine
    rw [findSubAux_single_append ' ' name _ 0 hname, findSubAux_single_cons_self]
    simp
  have hdrop1 : (collectedLine name amt rest).drop (name.length + 1)
      = "collected".data ++ (' ' :: (amt ++ (' ' :: rest))) := by
    unfold collectedLine
    exact drop_append_cons name ' ' _
  have hss : pyFindFrom (collectedLine name amt rest) [' '] (name.length + 1)
      = ((name.length + 10 : Nat) : Int) := by
    unfold pyFindFrom
    rw [hdrop1, findSubAux_single_append ' ' "collected".data _ _ hcol,
        findSubAux_single_cons_self]
    simp [hlen9]
    omega
  have hL2 : collectedLine name amt rest
      = (name ++ (' ' :: ("collected".data ++ [' ']))) ++ (amt ++ (' ' :: rest)) := by
    unfold collectedLine
    simp
  have hA : (name ++ (' ' :: ("collected".data ++ [' ']))).length = name.length + 11 := by
    simp [hlen9]
  have hts : pyFindFrom (collectedLine name amt rest) [' '] (name.length + 11)
      = ((name.length + 11 + amt.length : Nat) : Int) := by
    unfold pyFindFrom
    rw [show (collectedLine name amt rest).drop (name.length + 11) = amt ++ (' ' :: rest) from by
          rw [hL2, ← hA, drop_len_append],
        findSubAux_single_append ' ' amt _ _ hamt, findSubAux_single_cons_self]
  have hslice : pySlice (collectedLine name amt rest)
      ((name.length + 11 : Nat) : Int) ((name.length + 11 + amt.length : Nat) : Int) = amt := by
    rw [hL2, ← hA]
    exact pySlice_extract _ amt (' ' :: rest)
  have hnm : pySlice (collectedLine name amt rest) 0 ((name.length : Nat) : Int) = name := by
    unfold collectedLine
    exact pySlice_zero name _
  simp only [parse_collected]
  rw [hfs]
  rw [show ((name.length : Int) + 1).toNat = name.length + 1 from by omega]
  rw [hss]
  rw [show (((name.length + 10 : Nat) : Int) + 1).toNat = name.length + 11 from by omega]
  rw [hts]
  rw [show ((name.length + 10 : Nat) : Int) + 1 = ((name.length + 11 : Nat) : Int) from by omega]
  rw [hslice, hnm, hq]

/-- C1, witness for the amended theorem at a concrete collected line. -/
theorem parse_collected_spec_witness :
    parse_collected 5 (collectedLine "Alice".data "300".data "from pot".data) =
      .ok ({ name := String.mk "Alice".data, act := .WIN, amount := some (5 + 300) }, 5 + 300) :=
  parse_collected_spec 5 300 "Alice".data "300".data "from pot".data
    (by decide) (by decide) (by with_unfolding_all rfl)

/-! ## C2 -/

theorem classify_none_iff (line : List Char) :
    classify line = none ↔
      (¬("Uncalled bet".data <+: line) ∧
       hasSub line "collected".data = false ∧
       hasSub line "doesn\x27t show hand".data = false ∧
       ':' ∉ line) := by
  unfold classify
  split_ifs with h1 h2 h3 h4 <;> simp_all

theorem classify_iffs (line : List Char) :
    (classify line = some .uncalled ↔ "Uncalled bet".data <+: line) ∧
    (classify line = some .collected ↔
      (¬("Uncalled bet".data <+: line) ∧ hasSub line "collected".data = true)) ∧
    (classify line = some .noshow ↔
      (¬("Uncalled bet".data <+: line) ∧ hasSub line "collected".data = false ∧
       hasSub line "doesn\x27t show hand".data = true)) ∧
    (classify line = some .playerAction ↔
      (¬("Uncalled bet".data <+: line) ∧ hasSub line "collected".data = false ∧
       hasSub line "doesn\x27t show hand".data = false ∧ ':' ∈ line)) := by
  unfold classify
  split_ifs with h1 h2 h3 h4 <;> simp_all

theorem parse_actions_go_err (p : ℚ) (lines : List (List Char)) (line : List Char)
    (hm : line ∈ lines) (hc : classify line = none) :
    ∀ pot acc r, parse_actions_go p lines pot acc ≠ .ok r := by
  induction lines with
  | nil => exact absurd hm (List.not_mem_nil line)
  | cons l ls ih =>
    intro pot acc r
    rcases List.mem_cons.mp hm with rfl | hm2
    · obtain ⟨h1, h2, h3, h4⟩ := (classify_none_iff line).mp hc
      simp [parse_actions_go, h1, h2, h3, h4]
    · rw [parse_actions_go]
      split
      · split
        · exact ih hm2 _ _ r
        · simp
      · split
        · split
          · exact ih hm2 _ _ r
          · simp
        · split
          · exact ih hm2 _ _ r
          · split
            · split
              · exact ih hm2 _ _ r
              · simp
            · simp

theorem parse_actions_single_err (p : ℚ) (line : List Char) (hc : classify line = none) :
    parse_actions p [line] = .error (.UnrecognizedActionLine (String.mk line)) := by
  obtain ⟨h1, h2, h3, h4⟩ := (classify_none_iff line).mp hc
  simp [parse_actions, parse_actions_go, h1, h2, h3, h4, Except.map]

/-- C2.  Action-line classification applies the four shapes in source order
with first match winning: the uncalled-bet prefix wins over everything, the
`collected` test is reached only when the prefix fails, the no-show test only
after both, and the colon test last; and any action line matching none of the
four shapes makes `_parse_actions` fail — the whole list never parses to a
success, and on reaching such a line the error is the UnrecognizedActionLine
failure (the bare `raise`), not a skip. -/
theorem action_line_order_and_fatal :
    (∀ line : List Char,
      (classify line = some .uncalled ↔ "Uncalled bet".data <+: line) ∧
      (classify line = some .collected ↔
        (¬("Uncalled bet".data <+: line) ∧ hasSub line "collected".data = true)) ∧
      (classify line = some .noshow ↔
        (¬("Uncalled bet".data <+: line) ∧ hasSub line "collected".data = false ∧
         hasSub line "doesn\x27t show hand".data = true)) ∧
      (classify line = some .playerAction ↔
        (¬("Uncalled bet".data <+: line) ∧ hasSub line "collected".data = false ∧
         hasSub line "doesn\x27t show hand".data = false ∧ ':' ∈ line)) ∧
      (classify line = none ↔
        (¬("Uncalled bet".data <+: line) ∧ hasSub line "collected".data = false ∧
         hasSub line "doesn\x27t show hand".data = false ∧ ':' ∉ line))) ∧
    (∀ (p : ℚ) (lines : List (List Char)) (line : List Char),
      line ∈ lines → classify line = none → ∀ r, parse_actions p lines ≠ .ok r) ∧
    (∀ (p : ℚ) (line : List Char), classify line = none →
      parse_actions p [line] = .error (.UnrecognizedActionLine (String.mk line))) := by
  refine ⟨fun line => ?_, ?_, parse_actions_single_err⟩
  · obtain ⟨i1, i2, i3, i4⟩ := classify_iffs line
    exact ⟨i1, i2, i3, i4, classify_none_iff line⟩
  · intro p lines line hm hc r hcontra
    unfold parse_actions at hcontra
    cases hgo : parse_actions_go p lines p [] with
    | ok r0 => exact parse_actions_go_err p lines line hm hc p [] r0 hgo
    | error e => rw [hgo] at hcontra; exact absurd hcontra (by simp [Except.map])

/-- C2, witness: a line matching none of the four shapes makes the parse
fail with the UnrecognizedActionLine error. -/
theorem action_line_order_and_fatal_witness :
    parse_actions 0 ["xyz".data] = .error (.UnrecognizedActionLine (String.mk "xyz".data)) :=
  action_line_order_and_fatal.2.2 0 "xyz".data (by decide)

/-! ## C3 -/

theorem setAdd_mem (ws : List String) (m n : String) :
    n ∈ setAdd ws m ↔ n ∈ ws ∨ n = m := by
  unfold setAdd
  split_ifs with h
  · exact ⟨fun h2 => Or.inl h2, fun h2 => h2.elim id (fun he => he ▸ h)⟩
  · simp

theorem setAdd_nodup (ws : List String) (m : String) (h : ws.Nodup) :
    (setAdd ws m).Nodup := by
  unfold setAdd
  split_ifs with hm
  · exact h
  · rw [List.nodup_append]
    refine ⟨h, List.nodup_singleton m, ?_⟩
    intro a ha hb
    rw [List.mem_singleton] at hb
    exact hm (hb ▸ ha)

theorem parse_winners_go_spec (sd : Bool) (lines : List (List Char)) :
    ∀ (acc ws : List String), parse_winners_go sd lines acc = .ok ws →
      (∀ n, n ∈ ws ↔ (n ∈ acc ∨ ∃ l ∈ lines,
         (sd = false ∧ hasSub l "collected".data = true ∧ matchWinnerRe l = some n) ∨
         (sd = true ∧ hasSub l "won".data = true ∧ matchShowdownRe l = some n))) ∧
      (acc.Nodup → ws.Nodup) := by
  induction lines with
  | nil =>
    intro acc ws h
    obtain rfl : acc = ws := by simpa [parse_winners_go] using h
    exact ⟨fun n => by simp, id⟩
  | cons l ls ih =>
    intro acc ws h
    rw [parse_winners_go] at h
    cases sd with
    | false =>
      by_cases hcol : hasSub l "collected".data = true
      · rw [if_pos (by simp [hcol])] at h
        cases hwm : matchWinnerRe l with
        | some name =>
          rw [hwm] at h
          obtain ⟨h1, h2⟩ := ih (setAdd acc name) ws h
          refine ⟨fun n => ?_, fun hnd => h2 (setAdd_nodup _ _ hnd)⟩
          rw [h1 n, setAdd_mem]
          constructor
          · rintro (⟨hin | rfl⟩ | ⟨l2, hl2, hrel⟩)
            · exact Or.inl hin
            · exact Or.inr ⟨l, List.mem_cons_self l ls, Or.inl ⟨rfl, hcol, hwm⟩⟩
            · exact Or.inr ⟨l2, List.mem_cons_of_mem l hl2, hrel⟩
          · rintro (hin | ⟨l2, hl2, hrel⟩)
            · exact Or.inl (Or.inl hin)
            · rcases List.mem_cons.mp hl2 with rfl | hl2'
              · rcases hrel with ⟨-, -, hsome⟩ | ⟨hf, -, -⟩
                · exact Or.inl (Or.inr (Option.some.inj (hwm ▸ hsome)).symm)
                · cases hf
              · exact Or.inr ⟨l2, hl2', hrel⟩
        | none => rw [hwm] at h; cases h
      · rw [if_neg (by simp [hcol]), if_neg (by simp)] at h
        obtain ⟨h1, h2⟩ := ih acc ws h
        refine ⟨fun n => ?_, h2⟩
        rw [h1 n]
        constructor
        · rintro (hin | ⟨l2, hl2, hrel⟩)
          · exact Or.inl hin
          · exact Or.inr ⟨l2, List.mem_cons_of_mem l hl2, hrel⟩
        · rintro (hin | ⟨l2, hl2, hrel⟩)
          · exact Or.inl hin
          · rcases List.mem_cons.mp hl2 with rfl | hl2'
            · rcases hrel with ⟨-, hc, -⟩ | ⟨hf, -, -⟩
              · exact absurd hc hcol
              · cases hf
            · exact Or.inr ⟨l2, hl2', hrel⟩
    | true =>
      by_cases hwon : hasSub l "won".data = true
      · rw [if_neg (by simp), if_pos (by simp [hwon])] at h
        cases hwm : matchShowdownRe l with
        | some name =>
          rw [hwm] at h
          obtain ⟨h1, h2⟩ := ih (setAdd acc name) ws h
          refine ⟨fun n => ?_, fun hnd => h2 (setAdd_nodup _ _ hnd)⟩
          rw [h1 n, setAdd_mem]
          constructor
          · rintro (⟨hin | rfl⟩ | ⟨l2, hl2, hrel⟩)
            · exact Or.inl hin
            · exact Or.inr ⟨l, List.mem_cons_self l ls, Or.inr ⟨rfl, hwon, hwm⟩⟩
            · exact Or.inr ⟨l2, List.mem_cons_of_mem l hl2, hrel⟩
          · rintro (hin | ⟨l2, hl2, hrel⟩)
            · exact Or.inl (Or.inl hin)
            · rcases List.mem_cons.mp hl2 with rfl | hl2'
              · rcases hrel with ⟨hf, -, -⟩ | ⟨-, -, hsome⟩
                · cases hf
                · exact Or.inl (Or.inr (Option.some.inj (hwm ▸ hsome)).symm)
              · exact Or.inr ⟨l2, hl2', hrel⟩
        | none => rw [hwm] at h; cases h
      · rw [if_neg (by simp), if_neg (by simp [hwon])] at h
        obtain ⟨h1, h2⟩ := ih acc ws h
        refine ⟨fun n => ?_, h2⟩
        rw [h1 n]
        constructor
        · rintro (hin | ⟨l2, hl2, hrel⟩)
          · exact Or.inl hin
          · exact Or.inr ⟨l2, List.mem_cons_of_mem l hl2, hrel⟩
        · rintro (hin | ⟨l2, hl2, hrel⟩)
          · exact Or.inl hin
          · rcases List.mem_cons.mp hl2 with rfl | hl2'
            · rcases hrel with ⟨hf, -, -⟩ | ⟨-, hw, -⟩
              · cases hf
              · exact absurd hw hwon
            · exact Or.inr ⟨l2, hl2', hrel⟩

/-- C3.  The showdown flag is true exactly when a literal `"SHOW DOWN"` line
exists in the split line sequence; on a successful winner resolution a name
is a winner exactly when some summary line containing `"collected"` (non-
showdown path) is captured to it by the seat-summary grammar, respectively
some line containing `"won"` (showdown path) by the showdown-summary
grammar; and the winners collection holds no duplicate names. -/
theorem winners_resolution :
    (∀ splitted : List String, parse_showdown splitted = true ↔ "SHOW DOWN" ∈ splitted) ∧
    (∀ (sd : Bool) (lines : List (List Char)) (ws : List String),
      parse_winners sd lines = .ok ws →
      (∀ n, n ∈ ws ↔ ∃ l ∈ lines,
        (sd = false ∧ hasSub l "collected".data = true ∧ matchWinnerRe l = some n) ∨
        (sd = true ∧ hasSub l "won".data = true ∧ matchShowdownRe l = some n)) ∧
      ws.Nodup) := by
  constructor
  · intro s
    simp [parse_showdown]
  · intro sd lines ws h
    obtain ⟨h1, h2⟩ := parse_winners_go_spec sd lines [] ws h
    exact ⟨fun n => by rw [h1 n]; simp, h2 List.nodup_nil⟩

/-- C3, witness at a concrete non-showdown summary: the single collected
line yields exactly the captured winner, without duplicates. -/
theorem winners_resolution_witness :
    ("Alice" ∈ (["Alice"] : List String) ↔ ∃ l ∈ ["Seat 1: Alice collected (300)".data],
      (false = false ∧ hasSub l "collected".data = true ∧ matchWinnerRe l = some "Alice") ∨
      (false = true ∧ hasSub l "won".data = true ∧ matchShowdownRe l = some "Alice")) ∧
    (["Alice"] : List String).Nodup := by
  have h := winners_resolution.2 false ["Seat 1: Alice collected (300)".data] ["Alice"] (by decide)
  exact ⟨h.1 "Alice", h.2⟩

/-! ## C4 -/

theorem getHeroFromPlayersGo_name (name : String) (ps : List (Option Player)) :
    ∀ (i : Nat) (p : Player) (j : Nat),
      getHeroFromPlayersGo name ps i = some (p, j) → p.name = name := by
  induction ps with
  | nil => intro i p j h; cases h
  | cons x ps ih =>
    intro i p j h
    cases x with
    | none => exact ih (i + 1) p j h
    | some q =>
      rw [getHeroFromPlayersGo] at h
      split at h
      · next hq =>
          simp only [Option.some.injEq, Prod.mk.injEq] at h
          obtain ⟨rfl, rfl⟩ := h
          exact hq
      · exact ih (i + 1) p j h

/-- C4.  When the reveal line matches the hero grammar and a seated player
carries the revealed name, hero resolution replaces that player, at its seat
index, by a new record whose combo holds the two parsed cards, sets the hero
to that updated record, and — when the button carries the hero name — points
the button at the updated record (combo populated), not at the stale
pre-replace one. -/
theorem hero_replace_and_button
    (players : List (Option Player)) (button : Player) (line : List Char)
    (hname : String) (c1 c2 : List Char)
    (hm : matchHeroRe line = some (hname, c1, c2))
    (hero0 : Player) (idx : Nat)
    (hg : getHeroFromPlayers players hname = some (hero0, idx)) :
    parse_hero players button line =
      .ok (players.set idx (some (heroReplaced hero0 c1 c2)), heroReplaced hero0 c1 c2,
           if button.name = hname then heroReplaced hero0 c1 c2 else button) ∧
    (heroReplaced hero0 c1 c2).combo = some (Combo.ofChars (c1 ++ c2)) ∧
    (heroReplaced hero0 c1 c2).name = hname ∧
    (button.name = hname →
      (if button.name = hname then heroReplaced hero0 c1 c2 else button)
        = heroReplaced hero0 c1 c2) := by
  have hn : hero0.name = hname := getHeroFromPlayersGo_name hname players 0 hero0 idx hg
  have hrn : (heroReplaced hero0 c1 c2).name = hname := by simp [heroReplaced, hn]
  refine ⟨?_, rfl, hrn, fun hb => if_pos hb⟩
  simp only [parse_hero, hm, hg]
  rw [hrn]

/-- C4, witness: the hero is also the button, and after the merge the button
is the combo-populated record. -/
theorem hero_replace_and_button_witness :
    parse_hero [some ⟨"Bob", 100, 1, none⟩, some ⟨"Ann", 200, 2, none⟩] ⟨"Bob", 100, 1, none⟩
        "Dealt to Bob [Ah Kd]".data =
      .ok (([some ⟨"Bob", 100, 1, none⟩, some ⟨"Ann", 200, 2, none⟩] : List (Option Player)).set 0
             (some (heroReplaced ⟨"Bob", 100, 1, none⟩ ['A', 'h'] ['K', 'd'])),
           heroReplaced ⟨"Bob", 100, 1, none⟩ ['A', 'h'] ['K', 'd'],
           if ("Bob" : String) = "Bob" then heroReplaced ⟨"Bob", 100, 1, none⟩ ['A', 'h'] ['K', 'd']
           else ⟨"Bob", 100, 1, none⟩) ∧
    (heroReplaced ⟨"Bob", 100, 1, none⟩ ['A', 'h'] ['K', 'd']).name = "Bob" := by
  have T := hero_replace_and_button
    [some ⟨"Bob", 100, 1, none⟩, some ⟨"Ann", 200, 2, none⟩] ⟨"Bob", 100, 1, none⟩
    "Dealt to Bob [Ah Kd]".data "Bob" ['A', 'h'] ['K', 'd'] (by decide)
    ⟨"Bob", 100, 1, none⟩ 0 (by decide)
  exact ⟨T.1, T.2.2.1⟩

/-! ## C5 -/

theorem map_range_getD (ps : List (Option Player)) :
    (List.range ps.length).map (fun i => ps.getD i none) = ps := by
  apply List.ext_getElem
  · simp
  · intro i h1 h2
    simp [List.getElem?_eq_getElem h2]

theorem lastSeatWrite_nil (i : Nat) : lastSeatWrite [] i = none := rfl

theorem lastSeatWrite_cons (l : List Char) (L : List (List Char)) (i : Nat) :
    lastSeatWrite (l :: L) i =
      (lastSeatWrite L i).or
        ((seatLinePlayer l).bind fun sp => if sp.1 = i + 1 then some sp.2 else none) := by
  unfold lastSeatWrite
  rw [List.reverse_cons, List.findSome?_append]
  congr 1
  cases h : (seatLinePlayer l).bind fun sp => if sp.1 = i + 1 then some sp.2 else none <;>
    simp [List.findSome?, h]

theorem takeWhile_idem (p : List Char → Bool) (L : List (List Char)) :
    (L.takeWhile p).takeWhile p = L.takeWhile p := by
  induction L with
  | nil => rfl
  | cons l ls ih =>
    by_cases h : p l
    · rw [List.takeWhile_cons_of_pos h, List.takeWhile_cons_of_pos h, ih]
    · rw [List.takeWhile_cons_of_neg h]
      rfl

theorem parse_players_go_nil (ps : List (Option Player)) :
    parse_players_go ps [] = .ok ps := rfl

theorem parse_players_go_cons (ps : List (Option Player)) (l : List Char) (ls : List (List Char)) :
    parse_players_go ps (l :: ls) =
      match matchSeatRe l with
      | none => .ok ps
      | some r =>
        match pyInt r.2.2 with
        | none => .error (.InvalidDecimal (String.mk r.2.2))
        | some stack =>
          match pySetList ps ((charVal r.1 : Int) - 1)
              (some { name := r.2.1, stack := stack, seat := charVal r.1, combo := none }) with
          | some ps2 => parse_players_go ps2 ls
          | none => .error .IndexError := rfl

theorem pySetList_pos {α : Type} (xs : List α) (k : Nat) (v : α)
    (h1 : 1 ≤ k) (h2 : k ≤ xs.length) :
    pySetList xs ((k : Int) - 1) v = some (xs.set (k - 1) v) := by
  simp only [pySetList]
  have hneg : ¬((k : Int) - 1 < 0) := by omega
  rw [if_neg hneg]
  have hpos : 0 ≤ (k : Int) - 1 ∧ (k : Int) - 1 < (xs.length : Int) := by
    constructor <;> omega
  rw [if_pos hpos]
  have htn : ((k : Int) - 1).toNat = k - 1 := by omega
  rw [htn]

theorem parse_players_go_char (lines : List (List Char)) :
    ∀ ps : List (Option Player),
      (∀ l ∈ lines.takeWhile (fun l => (matchSeatRe l).isSome), seatInRange ps.length l = true) →
      parse_players_go ps lines =
        .ok ((List.range ps.length).map fun i =>
          (lastSeatWrite (lines.takeWhile fun l => (matchSeatRe l).isSome) i).elim
            (ps.getD i none) some) := by
  induction lines with
  | nil =>
    intro ps _
    rw [parse_players_go_nil]
    rw [show lastSeatWrite ([].takeWhile fun l => (matchSeatRe l).isSome) = lastSeatWrite [] from rfl]
    simp only [lastSeatWrite_nil, Option.elim]
    rw [map_range_getD]
  | cons l ls ih =>
    intro ps H
    cases hms : matchSeatRe l with
    | none =>
      rw [List.takeWhile_cons_of_neg (by simp [hms])]
      simp only [parse_players_go_cons, hms, lastSeatWrite_nil, Option.elim]
      rw [map_range_getD]
    | some r =>
      have htw : (l :: ls).takeWhile (fun l => (matchSeatRe l).isSome)
          = l :: ls.takeWhile (fun l => (matchSeatRe l).isSome) :=
        List.takeWhile_cons_of_pos (by simp [hms])
      have hsr : seatInRange ps.length l = true := by
        apply H l
        rw [htw]
        exact List.mem_cons_self _ _
      unfold seatInRange at hsr
      cases hsp : seatLinePlayer l with
      | none => rw [hsp] at hsr; cases hsr
      | some sp =>
        rw [hsp] at hsr
        obtain ⟨hlo, hhi⟩ : 1 ≤ sp.1 ∧ sp.1 ≤ ps.length := by
          constructor <;> [exact of_decide_eq_true (Bool.and_elim_left hsr);
            exact of_decide_eq_true (Bool.and_elim_right hsr)]
        cases hpi : pyInt r.2.2 with
        | none =>
          exfalso
          unfold seatLinePlayer at hsp
          rw [hms, Option.some_bind, hpi] at hsp
          simp at hsp
        | some stack =>
          have hsp2 : sp = (charVal r.1,
              { name := r.2.1, stack := stack, seat := charVal r.1, combo := none }) := by
            unfold seatLinePlayer at hsp
            rw [hms, Option.some_bind, hpi] at hsp
            exact (Option.some.inj hsp).symm
          have hlo2 : 1 ≤ charVal r.1 := by rw [hsp2] at hlo; exact hlo
          have hhi2 : charVal r.1 ≤ ps.length := by rw [hsp2] at hhi; exact hhi
          have hset := pySetList_pos ps (charVal r.1)
            (some { name := r.2.1, stack := stack, seat := charVal r.1, combo := none }) hlo2 hhi2
          simp only [parse_players_go_cons, hms, hpi, hset]
          rw [ih (ps.set (charVal r.1 - 1)
              (some { name := r.2.1, stack := stack, seat := charVal r.1, combo := none }))
            (by
              intro l2 hl2
              rw [List.length_set]
              apply H l2
              rw [htw]
              exact List.mem_cons_of_mem l hl2)]
          rw [htw]
          congr 1
          rw [List.length_set]
          apply List.map_congr_left
          intro i hi
          have hilt : i < ps.length := by
            rw [List.mem_range] at hi
            exact hi
          rw [lastSeatWrite_cons, hsp]
          cases hlsw : lastSeatWrite (ls.takeWhile fun l => (matchSeatRe l).isSome) i with
          | some p => simp [Option.or]
          | none =>
            simp only [Option.or, Option.some_bind]
            rw [hsp2]
            by_cases hieq : charVal r.1 = i + 1
            · rw [if_pos (by simpa using hieq)]
              simp only [Option.elim]
              have hidx : charVal r.1 - 1 = i := by omega
              rw [hidx, List.getD_eq_getElem?_getD,
                  List.getElem?_set_self (by omega), Option.getD_some]
            · rw [if_neg (by simpa using hieq)]
              simp only [Option.elim]
              rw [List.getD_eq_getElem?_getD, List.getElem?_set_ne (by omega),
                  ← List.getD_eq_getElem?_getD]

/-- C5, counterexample.  A line matching the seat grammar with seat number 3
scanned for a 2-seat table is not placed at index 2 — seat parsing fails
with an index error instead. -/
theorem parse_players_out_of_range_cex :
    matchSeatRe "Seat 3: Bob (5 in chips)".data = some ('3', "Bob", "5".data) ∧
    parse_players 2 ["Seat 3: Bob (5 in chips)".data] = .error .IndexError := by
  constructor
  · decide
  · decide

/-- C5, amended.  When every seat line scanned before the first non-matching
line carries a seat number within `1..max`: the scan stops at the first
non-matching line (parsing the whole list equals parsing the matching
prefix), and the resulting array, sized to `max`, holds at index `i` exactly
the player of the last seat line for seat `i + 1` — an unfilled placeholder
when no seat line for that seat occurred.  (A matching seat line whose
number exceeds `max` instead fails seat parsing with an index error.) -/
theorem parse_players_spec (max : Nat) (lines : List (List Char))
    (H : ∀ l ∈ lines.takeWhile (fun l => (matchSeatRe l).isSome), seatInRange max l = true) :
    parse_players max lines =
      .ok ((List.range max).map
        (lastSeatWrite (lines.takeWhile fun l => (matchSeatRe l).isSome))) ∧
    parse_players max lines = parse_players max (lines.takeWhile fun l => (matchSeatRe l).isSome) := by
  have hlen : (initSeats max).length = max := by simp [initSeats]
  have helim : ∀ L : List (List Char),
      (List.range max).map (fun i => (lastSeatWrite L i).elim ((initSeats max).getD i none) some)
        = (List.range max).map (lastSeatWrite L) := by
    intro L
    apply List.map_congr_left
    intro i _
    cases hl : lastSeatWrite L i with
    | some p => simp
    | none => simp [initSeats]
  have h1 := parse_players_go_char lines (initSeats max) (by rw [hlen]; exact H)
  have hmain : parse_players max lines =
      .ok ((List.range max).map
        (lastSeatWrite (lines.takeWhile fun l => (matchSeatRe l).isSome))) := by
    rw [parse_players, h1, hlen, helim]
  refine ⟨hmain, ?_⟩
  have h2 := parse_players_go_char (lines.takeWhile fun l => (matchSeatRe l).isSome)
    (initSeats max) (by rw [hlen, takeWhile_idem]; exact H)
  rw [hmain, parse_players, h2, hlen, takeWhile_idem, helim]

/-- C5, witness: two in-range seat lines, a section marker that ends the
scan, and a later seat line that is never reached. -/
theorem parse_players_spec_witness :
    parse_players 3 ["Seat 1: A (10 in chips)".data, "Seat 3: B (20 in chips)".data,
        "HOLE CARDS".data, "Seat 2: C (9 in chips)".data] =
      .ok ((List.range 3).map
        (lastSeatWrite (["Seat 1: A (10 in chips)".data, "Seat 3: B (20 in chips)".data,
          "HOLE CARDS".data, "Seat 2: C (9 in chips)".data].takeWhile
            fun l => (matchSeatRe l).isSome))) ∧
    parse_players 3 ["Seat 1: A (10 in chips)".data, "Seat 3: B (20 in chips)".data,
        "HOLE CARDS".data, "Seat 2: C (9 in chips)".data] =
      parse_players 3 (["Seat 1: A (10 in chips)".data, "Seat 3: B (20 in chips)".data,
        "HOLE CARDS".data, "Seat 2: C (9 in chips)".data].takeWhile
          fun l => (matchSeatRe l).isSome) :=
  parse_players_spec 3 _ (by decide)

/-! ## C6 -/

theorem pyIndex_findIdx_none (v : String) :
    ∀ (xs : List String) (i : Nat), v ∉ xs → pyIndex?.findIdx xs v i = none := by
  intro xs
  induction xs with
  | nil => intro i _; rfl
  | cons x xs ih =>
    intro i h
    have hx : x ≠ v := fun he => h (he ▸ List.mem_cons_self x xs)
    rw [pyIndex?.findIdx, if_neg hx]
    exact ih (i + 1) (fun hm => h (List.mem_cons_of_mem x hm))

theorem pyIndex?_eq_none {xs : List String} {v : String} (h : v ∉ xs) :
    pyIndex? xs v = none :=
  pyIndex_findIdx_none v xs 0 h

/-- C6.  When the uppercase street keyword is absent from the split line
sequence, parsing that street succeeds: the flop is set to the unset state
(`.ok none`, so there is no flop action sequence either), and for turn and
river the `.absent` outcome assigns the unset state to both the street field
and its action-sequence field. -/
theorem street_absent_unset (splitted : List String) (pot : ℚ) :
    ("FLOP" ∉ splitted → parse_flop splitted pot = .ok none) ∧
    ("TURN" ∉ splitted → parse_street splitted "turn" = .absent) ∧
    ("RIVER" ∉ splitted → parse_street splitted "river" = .absent) := by
  refine ⟨fun h => ?_, fun h => ?_, fun h => ?_⟩
  · simp only [parse_flop, pyIndex?_eq_none h]
  · simp only [parse_street]
    rw [show pyUpper "turn" = "TURN" from by decide, pyIndex?_eq_none h]
  · simp only [parse_street]
    rw [show pyUpper "river" = "RIVER" from by decide, pyIndex?_eq_none h]

/-- C6, witness: a line sequence without any street keyword. -/
theorem street_absent_unset_witness :
    parse_flop ["a", "b"] 0 = .ok none ∧
    parse_street ["a", "b"] "turn" = .absent ∧
    parse_street ["a", "b"] "river" = .absent :=
  ⟨(street_absent_unset ["a", "b"] 0).1 (by decide),
   (street_absent_unset ["a", "b"] 0).2.1 (by decide),
   (street_absent_unset ["a", "b"] 0).2.2 (by decide)⟩

/-! ## C10 -/

/-- C10.  Parsing the summary pot line updates only the total-pot field:
although the pot grammar captures both the total pot and the rake, the rake
capture (`pr.2`) does not influence the result — the parsed state is the
input state with only `total_pot` replaced, so the rake field (assigned from
the header buy-in line) and every other field are unchanged. -/
theorem parse_pot_frame (hh : HH) (line : List Char) (pr : List Char × List Char)
    (hm : matchPotRe line = some pr) (v : Nat) (hv : pyInt pr.1 = some v) :
    parse_pot hh line = .ok { hh with total_pot := some v } ∧
    ∀ hh2 : HH, parse_pot hh line = .ok hh2 →
      hh2.rake = hh.rake ∧ hh2.buyin = hh.buyin ∧ hh2.sb = hh.sb ∧ hh2.bb = hh.bb ∧
      hh2.currency = hh.currency ∧ hh2.players = hh.players ∧ hh2.button = hh.button ∧
      hh2.hero = hh.hero ∧ hh2.flop = hh.flop ∧ hh2.turn = hh.turn ∧ hh2.river = hh.river ∧
      hh2.turn_actions = hh.turn_actions ∧ hh2.river_actions = hh.river_actions ∧
      hh2.winners = hh.winners ∧ hh2.show_down = hh.show_down ∧ hh2.ident = hh.ident ∧
      hh2.table_name = hh.table_name ∧ hh2.max_players = hh.max_players ∧
      hh2.total_pot = some v := by
  have hmain : parse_pot hh line = .ok { hh with total_pot := some v } := by
    simp only [parse_pot, hm, hv]
  refine ⟨hmain, fun hh2 h2 => ?_⟩
  rw [hmain] at h2
  obtain rfl := Except.ok.inj h2
  exact ⟨rfl, rfl, rfl, rfl, rfl, rfl, rfl, rfl, rfl, rfl, rfl, rfl, rfl, rfl, rfl, rfl,
    rfl, rfl, rfl⟩

/-- C10, witness: a state carrying the header rake 1 keeps it although the
summary line captures rake 50; only the total pot is written. -/
theorem parse_pot_frame_witness :
    parse_pot { rake := some 1, buyin := some 10, ident := "7" } "Total pot 3750 | Rake 50".data =
      .ok { rake := some 1, buyin := some 10, ident := "7", total_pot := some 3750 } :=
  (parse_pot_frame { rake := some 1, buyin := some 10, ident := "7" }
    "Total pot 3750 | Rake 50".data ("3750".data, "50".data) (by decide) 3750 (by decide)).1

/-! ## C9 -/

theorem isDigit_ne_colon {c : Char} (h : c.isDigit = true) : c ≠ ':' := by
  rintro rfl
  exact absurd h (by decide)

theorem matchSeatRe_two_digit (a b : Char) (rest : List Char)
    (ha : a.isDigit = true) (hb : b.isDigit = true) :
    matchSeatRe ("Seat ".data ++ (a :: b :: rest)) = none := by
  have hbne : ((':' : Char) == b) = false :=
    beq_eq_false_iff_ne.mpr (fun he => isDigit_ne_colon hb he.symm)
  have h1 : eatLit ": ".data (b :: rest) = none := by
    have hpre : (": ".data.isPrefixOf (b :: rest)) = false := by
      simp [List.isPrefixOf, hbne]
    unfold eatLit
    rw [hpre]
    simp
  simp only [matchSeatRe, eatLit_self_append, Option.some_bind]
  simp [ha, h1]

theorem parse_players_go_stops (ps : List (Option Player)) (a b : Char) (rest : List Char)
    (ls : List (List Char)) (ha : a.isDigit = true) (hb : b.isDigit = true) :
    parse_players_go ps (("Seat ".data ++ (a :: b :: rest)) :: ls) = .ok ps := by
  rw [parse_players_go_cons, matchSeatRe_two_digit a b rest ha hb]

/-- C9, counterexample.  A seat line with the two-digit seat number 10 does
not match the seat grammar, but seat parsing does not fail: the scan ends
normally with no player produced — the claim that seat parsing fails on such
a line is false. -/
theorem seat_two_digit_no_failure_cex :
    matchSeatRe "Seat 10: Bob (100 in chips)".data = none ∧
    parse_players 9 ["Seat 10: Bob (100 in chips)".data] = .ok (initSeats 9) ∧
    initSeats 9 = List.replicate 9 none := by
  exact ⟨by decide, by decide, rfl⟩

/-- C9, amended.  The table-line and seat-line grammars accept only a single
digit for the max-seat count, the button seat, and the seat number; a second
line with a two-digit max-seat count or button seat does not match, so table
parsing fails; a seat line whose seat number has two or more digits does not
match the seat grammar, so the seat scan ends at it without producing a
player (it is treated as the end of the seat section, not a failure).  Hence
tables with ten or more seats cannot be parsed. -/
theorem single_digit_grammars :
    (∀ (a b : Char) (rest : List Char), a.isDigit = true → b.isDigit = true →
      matchSeatRe ("Seat ".data ++ (a :: b :: rest)) = none) ∧
    (∀ (ps : List (Option Player)) (a b : Char) (rest : List Char) (ls : List (List Char)),
      a.isDigit = true → b.isDigit = true →
      parse_players_go ps (("Seat ".data ++ (a :: b :: rest)) :: ls) = .ok ps) ∧
    (matchTableRe "Table \x27T\x27 10-max Seat #1 is the button".data = none ∧
     parse_table "Table \x27T\x27 10-max Seat #1 is the button".data = .error .AttributeError) ∧
    (matchTableRe "Table \x27T\x27 6-max Seat #10 is the button".data = none ∧
     parse_table "Table \x27T\x27 6-max Seat #10 is the button".data = .error .AttributeError) := by
  refine ⟨matchSeatRe_two_digit, parse_players_go_stops, ⟨?_, ?_⟩, ⟨?_, ?_⟩⟩
  · decide
  · decide
  · decide
  · decide

/-- C9, witness: a concrete two-digit seat line neither matches nor fails. -/
theorem single_digit_grammars_witness :
    matchSeatRe ("Seat ".data ++ ('1' :: '0' :: ": Bob (5 in chips)".data)) = none ∧
    parse_players_go (initSeats 2) [("Seat ".data ++ ('1' :: '0' :: ": x".data))] = .ok (initSeats 2) :=
  ⟨single_digit_grammars.1 '1' '0' ": Bob (5 in chips)".data (by decide) (by decide),
   single_digit_grammars.2.1 (initSeats 2) '1' '0' ": x".data [] (by decide) (by decide)⟩

/-! ## C8 -/

theorem boardTokensGo_single (prev : Option Char) (c : Char) :
    boardTokensGo prev [c] = [] := by
  rw [boardTokensGo.eq_def]

theorem boardTokensGo_step (prev : Option Char) (c1 c2 : Char) (rest : List Char) :
    boardTokensGo prev (c1 :: c2 :: rest) =
      if ((prev == some '[') || (prev == some ' ')) &&
          (match rest with | r :: _ => (r == ']') || (r == ' ') | [] => false) then
        [c1, c2] :: boardTokensGo (some c2) rest
      else boardTokensGo (some c1) (c2 :: rest) := by
  rw [boardTokensGo.eq_def]

theorem boardTokensGo_hit (prev : Option Char) (c1 c2 : Char) (rest : List Char)
    (hp : prev = some '[' ∨ prev = some ' ')
    (hr : (match rest with | r :: _ => (r == ']') || (r == ' ') | [] => false) = true) :
    boardTokensGo prev (c1 :: c2 :: rest) = [c1, c2] :: boardTokensGo (some c2) rest := by
  rw [boardTokensGo_step, if_pos]
  rw [hr, Bool.and_true]
  rcases hp with rfl | rfl <;> simp

theorem boardTokensGo_skip_prev (prev : Option Char) (c1 c2 : Char) (rest : List Char)
    (hp1 : prev ≠ some '[') (hp2 : prev ≠ some ' ') :
    boardTokensGo prev (c1 :: c2 :: rest) = boardTokensGo (some c1) (c2 :: rest) := by
  rw [boardTokensGo_step, if_neg]
  simp [hp1, hp2]

theorem boardTokensGo_skip_ahead (prev : Option Char) (c1 c2 : Char) (rest : List Char)
    (hr : (match rest with | r :: _ => (r == ']') || (r == ' ') | [] => false) = false) :
    boardTokensGo prev (c1 :: c2 :: rest) = boardTokensGo (some c1) (c2 :: rest) := by
  rw [boardTokensGo_step, if_neg]
  simp [hr]

theorem boardTokensGo_seg (toks : List (List Char)) (h : ∀ t ∈ toks, tokOk t) :
    ∀ prev, (prev = some '[' ∨ prev = some ' ') →
      boardTokensGo prev (joinToks toks) = toks := by
  induction toks with
  | nil =>
    intro prev _
    rw [show joinToks [] = [']'] from rfl]
    exact boardTokensGo_single prev ']'
  | cons t ts ih =>
    intro prev hprev
    obtain ⟨x, y, rfl, hx1, hx2, hx3, hy1, hy2, hy3⟩ := h t (List.mem_cons_self t ts)
    cases ts with
    | nil =>
      rw [show joinToks [[x, y]] = x :: y :: [']'] from rfl]
      rw [boardTokensGo_hit prev x y [']'] hprev (by simp)]
      rw [boardTokensGo_single]
    | cons t2 ts2 =>
      obtain ⟨x2, y2, ht2eq, h2x1, h2x2, h2x3, h2y1, h2y2, h2y3⟩ :=
        h t2 (List.mem_cons_of_mem _ (List.mem_cons_self t2 ts2))
      subst ht2eq
      obtain ⟨tail, htail⟩ : ∃ tail, joinToks ([x2, y2] :: ts2) = x2 :: y2 :: tail := by
        cases ts2 <;> exact ⟨_, rfl⟩
      rw [show joinToks ([x, y] :: [x2, y2] :: ts2)
            = x :: y :: (' ' :: joinToks ([x2, y2] :: ts2)) from rfl]
      rw [boardTokensGo_hit prev x y (' ' :: joinToks ([x2, y2] :: ts2)) hprev (by simp)]
      rw [htail, boardTokensGo_skip_prev (some y) ' ' x2 (y2 :: tail)
            (by simpa using hy1) (by simpa using hy3)]
      rw [← htail, ih (fun t ht => h t (List.mem_cons_of_mem _ ht)) (some ' ') (Or.inr rfl)]

/-- C8.  When the line after the pot line does not begin with `"Board"`,
board parsing leaves the turn and river unchanged (unset stays unset); when
it does, the turn card is the bracket-delimited two-character token at index
3 and the river card the token at index 4 of the scanned token list, each
left unset when the line has fewer tokens; and on a well-formed five-token
board line the scanner extracts exactly the five space-separated
two-character tokens between the brackets, so the turn is the fourth and the
river the fifth. -/
theorem parse_board_spec (turn river : Option Card)
    (x1 y1 x2 y2 x3 y3 x4 y4 x5 y5 : Char)
    (hx : ∀ c ∈ [x1, y1, x2, y2, x3, y3, x4, y4, x5, y5], c ≠ '[' ∧ c ≠ ']' ∧ c ≠ ' ') :
    (∀ l : List Char, ¬("Board".data <+: l) → parse_board turn river l = (turn, river)) ∧
    (∀ l : List Char, "Board".data <+: l →
      parse_board turn river l =
        (((boardTokens l).get? 3).map Card.ofChars, ((boardTokens l).get? 4).map Card.ofChars)) ∧
    boardTokens ("Board [".data
        ++ joinToks [[x1, y1], [x2, y2], [x3, y3], [x4, y4], [x5, y5]])
      = [[x1, y1], [x2, y2], [x3, y3], [x4, y4], [x5, y5]] ∧
    parse_board turn river ("Board [".data
        ++ joinToks [[x1, y1], [x2, y2], [x3, y3], [x4, y4], [x5, y5]])
      = (some (Card.ofChars [x4, y4]), some (Card.ofChars [x5, y5])) ∧
    parse_board turn river "Board [2h 5s Kd 9c]".data
      = (some { rank := '9', suit := 'c' }, none) := by
  have htoks : ∀ t ∈ [[x1, y1], [x2, y2], [x3, y3], [x4, y4], [x5, y5]], tokOk t := by
    intro t ht
    have hmem : ∀ c ∈ [x1, y1, x2, y2, x3, y3, x4, y4, x5, y5], c ≠ '[' ∧ c ≠ ']' ∧ c ≠ ' ' := hx
    simp only [List.mem_cons, List.not_mem_nil, or_false] at ht
    rcases ht with rfl | rfl | rfl | rfl | rfl
    · exact ⟨x1, y1, rfl, (hmem x1 (by simp)).1, (hmem x1 (by simp)).2.1, (hmem x1 (by simp)).2.2,
        (hmem y1 (by simp)).1, (hmem y1 (by simp)).2.1, (hmem y1 (by simp)).2.2⟩
    · exact ⟨x2, y2, rfl, (hmem x2 (by simp)).1, (hmem x2 (by simp)).2.1, (hmem x2 (by simp)).2.2,
        (hmem y2 (by simp)).1, (hmem y2 (by simp)).2.1, (hmem y2 (by simp)).2.2⟩
    · exact ⟨x3, y3, rfl, (hmem x3 (by simp)).1, (hmem x3 (by simp)).2.1, (hmem x3 (by simp)).2.2,
        (hmem y3 (by simp)).1, (hmem y3 (by simp)).2.1, (hmem y3 (by simp)).2.2⟩
    · exact ⟨x4, y4, rfl, (hmem x4 (by simp)).1, (hmem x4 (by simp)).2.1, (hmem x4 (by simp)).2.2,
        (hmem y4 (by simp)).1, (hmem y4 (by simp)).2.1, (hmem y4 (by simp)).2.2⟩
    · exact ⟨x5, y5, rfl, (hmem x5 (by simp)).1, (hmem x5 (by simp)).2.1, (hmem x5 (by simp)).2.2,
        (hmem y5 (by simp)).1, (hmem y5 (by simp)).2.1, (hmem y5 (by simp)).2.2⟩
  have hscan : boardTokens ("Board [".data
      ++ joinToks [[x1, y1], [x2, y2], [x3, y3], [x4, y4], [x5, y5]])
      = [[x1, y1], [x2, y2], [x3, y3], [x4, y4], [x5, y5]] := by
    obtain ⟨tail, htail⟩ : ∃ tail,
        joinToks [[x1, y1], [x2, y2], [x3, y3], [x4, y4], [x5, y5]] = x1 :: y1 :: tail :=
      ⟨_, rfl⟩
    unfold boardTokens
    rw [show "Board [".data ++ joinToks [[x1, y1], [x2, y2], [x3, y3], [x4, y4], [x5, y5]]
          = 'B' :: 'o' :: 'a' :: 'r' :: 'd' :: ' ' :: '[' ::
            joinToks [[x1, y1], [x2, y2], [x3, y3], [x4, y4], [x5, y5]] from rfl]
    rw [boardTokensGo_skip_prev none 'B' 'o' _ (by simp) (by simp)]
    rw [boardTokensGo_skip_prev (some 'B') 'o' 'a' _ (by simp) (by simp)]
    rw [boardTokensGo_skip_prev (some 'o') 'a' 'r' _ (by simp) (by simp)]
    rw [boardTokensGo_skip_prev (some 'a') 'r' 'd' _ (by simp) (by simp)]
    rw [boardTokensGo_skip_prev (some 'r') 'd' ' ' _ (by simp) (by simp)]
    rw [boardTokensGo_skip_prev (some 'd') ' ' '[' _ (by simp) (by simp)]
    rw [htail]
    rw [boardTokensGo_skip_ahead (some ' ') '[' x1 (y1 :: tail) (by
      have hy := hx y1 (by simp)
      simp [hy.2.1, hy.2.2])]
    rw [← htail, boardTokensGo_seg _ htoks (some '[') (Or.inl rfl)]
  have hpre : ("Board".data : List Char) <+:
      "Board [".data ++ joinToks [[x1, y1], [x2, y2], [x3, y3], [x4, y4], [x5, y5]] :=
    ⟨" [".data ++ joinToks [[x1, y1], [x2, y2], [x3, y3], [x4, y4], [x5, y5]],
      by rw [← List.append_assoc]; rfl⟩
  have hgen : ∀ l : List Char, "Board".data <+: l →
      parse_board turn river l =
        (((boardTokens l).get? 3).map Card.ofChars, ((boardTokens l).get? 4).map Card.ofChars) := by
    intro l hl
    rw [parse_board, if_pos (List.isPrefixOf_iff_prefix.mpr hl)]
  refine ⟨fun l hl => ?_, hgen, hscan, ?_, ?_⟩
  · rw [parse_board, if_neg]
    rw [List.isPrefixOf_iff_prefix]
    exact hl
  · rw [hgen _ hpre, hscan]
    rfl
  · rw [hgen "Board [2h 5s Kd 9c]".data ⟨" [2h 5s Kd 9c]".data, by rfl⟩]
    decide

/-- C8, witness at a concrete five-card board line. -/
theorem parse_board_spec_witness :
    parse_board none none ("Board [".data
        ++ joinToks [['2', 'h'], ['5', 's'], ['K', 'd'], ['J', 'c'], ['7', 'h']])
      = (some (Card.ofChars ['J', 'c']), some (Card.ofChars ['7', 'h'])) :=
  (parse_board_spec none none '2' 'h' '5' 's' 'K' 'd' 'J' 'c' '7' 'h' (by decide)).2.2.2.1

/-! ## C7 -/

theorem isDigit_ne_plus {c : Char} (h : c.isDigit = true) : ¬(c = '+') := by
  rintro rfl
  exact absurd h (by decide)

theorem isDigit_ne_minus {c : Char} (h : c.isDigit = true) : ¬(c = '-') := by
  rintro rfl
  exact absurd h (by decide)

theorem takeWhile_append_all (p : Char → Bool) (L l : List Char)
    (h : ∀ c ∈ L, p c = true) :
    (L ++ l).takeWhile p = L ++ l.takeWhile p := by
  induction L with
  | nil => simp
  | cons x Lx ih =>
    rw [List.cons_append, List.takeWhile_cons_of_pos (h x (List.mem_cons_self x Lx)),
        ih (fun c hc => h c (List.mem_cons_of_mem x hc))]
    rfl

theorem matchDecGroup_shape {cs : List Char} {pr : List Char × List Char}
    (h : matchDecGroup cs = some pr) :
    ∃ ds a b, pr.1 = ds ++ ('.' :: [a, b]) ∧ (∀ c ∈ ds, c.isDigit = true) ∧
      a.isDigit = true ∧ b.isDigit = true := by
  simp only [matchDecGroup] at h
  split at h
  · next a b rest _ =>
    split at h
    · next hab =>
      refine ⟨cs.takeWhile (·.isDigit), a, b, ?_, ?_, ?_, ?_⟩
      · rw [← Option.some.inj h]
      · exact fun c hc => List.mem_takeWhile_imp hc
      · exact (Bool.and_elim_left hab)
      · exact (Bool.and_elim_right hab)
    · cases h
  · cases h

theorem parseDecimal?_decGroup (ds : List Char) (a b : Char)
    (hds : ∀ c ∈ ds, c.isDigit = true) (ha : a.isDigit = true) (hb : b.isDigit = true) :
    (parseDecimal? (ds ++ ('.' :: [a, b]))).isSome = true := by
  have hdot : ¬(('.' : Char).isDigit = true) := by decide
  have htw : (ds ++ ('.' :: [a, b])).takeWhile (fun c => c.isDigit) = ds := by
    rw [takeWhile_append_all _ _ _ hds, List.takeWhile_cons_of_neg hdot, List.append_nil]
  have hdr : (ds ++ ('.' :: [a, b])).drop ds.length = '.' :: [a, b] := drop_len_append _ _
  cases ds with
  | nil =>
    simp only [List.nil_append] at htw hdr ⊢
    unfold parseDecimal?
    simp [ha, hb]
  | cons d ds2 =>
    have hd := hds d (List.mem_cons_self d ds2)
    unfold parseDecimal?
    simp only [List.cons_append]
    rw [if_neg (isDigit_ne_plus hd), if_neg (isDigit_ne_minus hd)]
    simp only [List.cons_append] at htw hdr
    rw [htw, hdr]
    simp [ha, hb]

theorem matchCurrencyAlt_shape {cs : List Char} {pr : List Char × List Char}
    (h : matchCurrencyAlt cs = some pr) :
    pr.1 = "USD".data ∨ pr.1 = "EUR".data := by
  unfold matchCurrencyAlt at h
  split at h
  · exact Or.inl (congrArg Prod.fst (Option.some.inj h)).symm
  · split at h
    · exact Or.inr (congrArg Prod.fst (Option.some.inj h)).symm
    · cases h

theorem matchHeaderRe_shape {line : List Char} {g : HeaderGroups}
    (h : matchHeaderRe line = some g) :
    g.game_type = "Tournament".data ∧ g.limit = "No Limit".data ∧
    (∃ ds a b, g.buyin = ds ++ ('.' :: [a, b]) ∧ (∀ c ∈ ds, c.isDigit = true) ∧
      a.isDigit = true ∧ b.isDigit = true) ∧
    (∃ ds a b, g.rake = ds ++ ('.' :: [a, b]) ∧ (∀ c ∈ ds, c.isDigit = true) ∧
      a.isDigit = true ∧ b.isDigit = true) ∧
    (g.currency = "USD".data ∨ g.currency = "EUR".data) := by
  unfold matchHeaderRe at h
  obtain ⟨cs1, -, h⟩ := Option.bind_eq_some.mp h
  obtain ⟨cs2, -, h⟩ := Option.bind_eq_some.mp h
  obtain ⟨cs3, -, h⟩ := Option.bind_eq_some.mp h
  obtain ⟨cs4, -, h⟩ := Option.bind_eq_some.mp h
  obtain ⟨br, hbr, h⟩ := Option.bind_eq_some.mp h
  obtain ⟨cs5, -, h⟩ := Option.bind_eq_some.mp h
  obtain ⟨rr, hrr, h⟩ := Option.bind_eq_some.mp h
  obtain ⟨cs6, -, h⟩ := Option.bind_eq_some.mp h
  obtain ⟨cr, hcr, h⟩ := Option.bind_eq_some.mp h
  obtain ⟨cs7, -, h⟩ := Option.bind_eq_some.mp h
  obtain ⟨game, rest1, -, h⟩ := tryGreedyAny_eq_some h
  obtain ⟨cs8, -, h⟩ := Option.bind_eq_some.mp h
  obtain ⟨level, rest2, -, h⟩ := tryGreedyAny_eq_some h
  obtain ⟨cs9, -, h⟩ := Option.bind_eq_some.mp h
  obtain ⟨sb, rest3, -, h⟩ := tryGreedyAny_eq_some h
  obtain ⟨cs10, -, h⟩ := Option.bind_eq_some.mp h
  obtain ⟨bb, rest4, -, h⟩ := tryGreedyAny_eq_some h
  obtain ⟨cs11, -, h⟩ := Option.bind_eq_some.mp h
  obtain ⟨loc, rest5, -, h⟩ := tryGreedyAny_eq_some h
  obtain ⟨cs12, -, h⟩ := Option.bind_eq_some.mp h
  obtain ⟨date, rest6, -, h⟩ := tryGreedyAny_eq_some h
  split at h
  · obtain rfl := Option.some.inj h
    obtain ⟨dsb, ab, bbch, hbuy, hbds, hba, hbb⟩ := matchDecGroup_shape hbr
    obtain ⟨dsr, ar, brch, hrk, hrds, hra, hrb⟩ := matchDecGroup_shape hrr
    exact ⟨rfl, rfl, ⟨dsb, ab, bbch, hbuy, hbds, hba, hbb⟩,
      ⟨dsr, ar, brch, hrk, hrds, hra, hrb⟩, matchCurrencyAlt_shape hcr⟩
  · cases h

theorem parse_header_fields (hh : HH) (line : List Char) (g : HeaderGroups)
    (hm : matchHeaderRe line = some g) (hh2 : HH) (h : parse_header hh line = .ok hh2) :
    hh2.buyin = parseDecimal? g.buyin ∧ hh2.rake = parseDecimal? g.rake ∧
    hh2.currency = CurrencyE.fromKey (String.mk g.currency) ∧
    hh2.sb = parseDecimal? g.sb ∧ hh2.bb = parseDecimal? g.bb ∧
    hh2.date = parseDate g.date ∧ hh2.game = GameE.fromKey (String.mk g.game) ∧
    hh2.limit = LimitE.fromKey (String.mk g.limit) ∧
    hh2.game_type = GameTypeE.fromKey (String.mk g.game_type) ∧
    hh2.ident = String.mk g.ident ∧ hh2.tournament_ident = String.mk g.tournament_ident ∧
    hh2.tournament_level = String.mk g.tournament_level := by
  unfold parse_header at h
  simp only [hm] at h
  cases hgt : GameTypeE.fromKey (String.mk g.game_type) with
  | none => simp only [hgt] at h; exact Except.noConfusion h
  | some gt =>
  simp only [hgt] at h
  cases hsb : parseDecimal? g.sb with
  | none => simp only [hsb] at h; exact Except.noConfusion h
  | some sbv =>
  simp only [hsb] at h
  cases hbb : parseDecimal? g.bb with
  | none => simp only [hbb] at h; exact Except.noConfusion h
  | some bbv =>
  simp only [hbb] at h
  cases hbuy : parseDecimal? g.buyin with
  | none => simp only [hbuy] at h; exact Except.noConfusion h
  | some buyinv =>
  simp only [hbuy] at h
  cases hrake : parseDecimal? g.rake with
  | none => simp only [hrake] at h; exact Except.noConfusion h
  | some rakev =>
  simp only [hrake] at h
  cases hdate : parseDate g.date with
  | none => simp only [hdate] at h; exact Except.noConfusion h
  | some datev =>
  simp only [hdate] at h
  cases hgame : GameE.fromKey (String.mk g.game) with
  | none => simp only [hgame] at h; exact Except.noConfusion h
  | some gamev =>
  simp only [hgame] at h
  cases hlimit : LimitE.fromKey (String.mk g.limit) with
  | none => simp only [hlimit] at h; exact Except.noConfusion h
  | some limitv =>
  simp only [hlimit] at h
  cases hcur : CurrencyE.fromKey (String.mk g.currency) with
  | none => simp only [hcur] at h; exact Except.noConfusion h
  | some curv =>
  simp only [hcur] at h
  obtain rfl := Except.ok.inj h
  exact ⟨rfl, rfl, rfl, rfl, rfl, rfl, rfl, rfl, rfl, rfl, rfl, rfl⟩

/-- C7, counterexample.  A first line that matches the header grammar whose
small-blind group is `"ab"` (the blinds are free-form `(.*)` captures) does
not decode: `Decimal("ab")` fails, so not every captured group of a
grammar-matching line decodes to its typed field. -/
theorem header_free_group_cex :
    (matchHeaderRe "PokerStars Hand #1: Tournament #2, $10.00+$1.00 USD Hold\x27em No Limit - Level IV (ab/cd) - x [2013/10/04 7:53:27 ET]".data).isSome = true ∧
    parse_header {} "PokerStars Hand #1: Tournament #2, $10.00+$1.00 USD Hold\x27em No Limit - Level IV (ab/cd) - x [2013/10/04 7:53:27 ET]".data
      = .error (.InvalidDecimal "ab") := by
  constructor
  · decide
  · decide

/-- C7, amended.  For every first line matching the header grammar, the
format-constrained groups always decode: the buy-in and rake groups (shaped
`digits.dd` by the grammar) parse as exact decimals, the currency group
(`USD|EUR`) is in the currency table, and the game-type and limit groups are
the fixed words; when header parsing succeeds, every captured group has been
decoded to its typed field.  The free-form groups (blinds, game, level,
date) decode only when their text is valid for their decoder.  In
particular a header line whose buy-in segment is `$10.00+$1.00 USD` yields
buyin = 10.00 and rake = 1.00 as exact decimals and currency = USD. -/
theorem header_decode :
    (∀ (line : List Char) (g : HeaderGroups), matchHeaderRe line = some g →
      (parseDecimal? g.buyin).isSome = true ∧ (parseDecimal? g.rake).isSome = true ∧
      (CurrencyE.fromKey (String.mk g.currency)).isSome = true ∧
      g.game_type = "Tournament".data ∧ g.limit = "No Limit".data ∧
      (∀ hh hh2 : HH, parse_header hh line = .ok hh2 →
        hh2.buyin = parseDecimal? g.buyin ∧ hh2.rake = parseDecimal? g.rake ∧
        hh2.currency = CurrencyE.fromKey (String.mk g.currency) ∧
        hh2.sb = parseDecimal? g.sb ∧ hh2.bb = parseDecimal? g.bb ∧
        hh2.date = parseDate g.date ∧ hh2.game = GameE.fromKey (String.mk g.game) ∧
        hh2.limit = LimitE.fromKey (String.mk g.limit) ∧
        hh2.game_type = GameTypeE.fromKey (String.mk g.game_type) ∧
        hh2.ident = String.mk g.ident ∧ hh2.tournament_ident = String.mk g.tournament_ident ∧
        hh2.tournament_level = String.mk g.tournament_level)) ∧
    parse_header {} "PokerStars Hand #1: Tournament #2, $10.00+$1.00 USD Hold\x27em No Limit - Level IV (50/100) - 2013/10/04 13:53:27 CET [2013/10/04 7:53:27 ET]".data
      = .ok { ident := "1", tournament_ident := "2", tournament_level := "IV",
              game_type := some .TOUR, game := some .HOLDEM, limit := some .NL,
              currency := some .USD, sb := some 50, bb := some 100,
              buyin := some 10, rake := some 1,
              date := some (2013, 10, 4, 7, 53, 27) } := by
  constructor
  · intro line g hm
    obtain ⟨hgt, hlim, ⟨dsb, ab, bbch, hbuy, hbds, hba, hbb⟩,
      ⟨dsr, ar, brch, hrk, hrds, hra, hrb⟩, hcur⟩ := matchHeaderRe_shape hm
    refine ⟨?_, ?_, ?_, hgt, hlim, fun hh hh2 h => parse_header_fields hh line g hm hh2 h⟩
    · rw [hbuy]
      exact parseDecimal?_decGroup dsb ab bbch hbds hba hbb
    · rw [hrk]
      exact parseDecimal?_decGroup dsr ar brch hrds hra hrb
    · rcases hcur with hc | hc <;> rw [hc] <;> decide
  · with_unfolding_all rfl

/-- C7, witness for the amended theorem at the concrete grammar-matching
header line: its format-constrained groups decode. -/
theorem header_decode_witness :
    (parseDecimal? "10.00".data).isSome = true ∧
    (parseDecimal? "1.00".data).isSome = true ∧
    (CurrencyE.fromKey (String.mk "USD".data)).isSome = true := by
  have h := header_decode.1
    "PokerStars Hand #1: Tournament #2, $10.00+$1.00 USD Hold\x27em No Limit - Level IV (50/100) - 2013/10/04 13:53:27 CET [2013/10/04 7:53:27 ET]".data
    { ident := "1".data, game_type := "Tournament".data, tournament_ident := "2".data,
      buyin := "10.00".data, rake := "1.00".data, currency := "USD".data,
      game := "Hold\x27em".data, limit := "No Limit".data, tournament_level := "IV".data,
      sb := "50".data, bb := "100".data, date := "2013/10/04 7:53:27 ET".data }
    (by decide)
  exact ⟨h.1, h.2.1, h.2.2.1⟩

end PokerSpec
